import Mathlib

/-!
# Verification of the CORD-19 cleaning/analysis pipeline

A shallow embedding of the repository's cleaning pipeline (`data_cleaning.py`:
`clean_data`, `handle_dates`, `handle_missing_values`, `create_new_features`),
the analysis routines (`analysis_visualization.py`: `analyze_titles`,
`analyze_publication_trends`, `analyze_sources`) and the dashboard's
`clean_data` (`app.py`), together with proofs about the claims of the
specification.

Modelling conventions:
* A pandas `DataFrame` is a `Table`: an ordered association list of named
  columns, every column an ordered list of cell `Value`s.  A rectangular frame
  with distinct column names satisfies `WFn t n` (`n` rows).
* `NaN`/`NaT`/missing cells are `Value.absent`.
* Accessing a missing column raises (`PyError.missingColumn`, the spec's
  `SchemaError` of missing-column kind); `zip(*[])` unpacking of an empty
  sequence raises `PyError.emptyUnpack` (Python's `ValueError`).
* `pd.to_datetime(..., errors='coerce')` is modelled by a permissive
  `parseDate` that accepts `YYYY-MM-DD` strings and already-parsed dates and
  coerces everything else to absent; claims only depend on the
  parseable/unparseable dichotomy, not on the accepted date language.
* `Series.mode()[0]` is modelled by `modeOf`: the smallest among the values of
  maximal multiplicity (pandas `mode` returns the modes sorted ascending).
* `Series.value_counts()` is modelled by counting distinct values in
  first-occurrence order and sorting by count descending with a stable sort
  (pandas sorts the value counts with a stable sort kind).
* `collections.Counter.most_common(n)` is a stable descending sort of the
  counter's items (insertion = first-occurrence order) followed by `take n`,
  matching `heapq.nlargest`'s documented equivalence with
  `sorted(..., reverse=True)[:n]`.
* Whitespace for `str.split()` / `str.strip()` is the ASCII whitespace set.
-/

/-- A cell of the table: a missing value (`NaN`/`NaT`), a string, an integer,
a boolean, or a parsed calendar date. -/
inductive Value where
  | absent
  | str (s : String)
  | int (n : Int)
  | bool (b : Bool)
  | date (y m d : Nat)
  deriving DecidableEq, Repr

/-- Errors the embedded Python code can raise: a missing-column `KeyError`
(the spec's `SchemaError`, missing-column kind), and the `ValueError` raised
by unpacking an empty sequence with `zip(*...)`. -/
inductive PyError where
  | missingColumn (c : String)
  | emptyUnpack
  deriving DecidableEq, Repr

/-- A column: the ordered list of cell values. -/
abbrev Col := List Value

/-- A data frame: an ordered association list of named columns. -/
abbrev Table := List (String × Col)

/-- `df[c]` for reading: the first column named `c`, or a missing-column
error. -/
def getCol : Table → String → Except PyError Col
  | [], c => .error (.missingColumn c)
  | (n, vs) :: t, c => if n = c then .ok vs else getCol t c

/-- Whether the frame has a column named `c`. -/
def hasCol : Table → String → Bool
  | [], _ => false
  | (n, _) :: t, c => decide (n = c) || hasCol t c

/-- Replace the value list of every column named `c`. -/
def replaceCol : Table → String → Col → Table
  | [], _, _ => []
  | (n, w) :: t, c, vs =>
    (if n = c then (n, vs) else (n, w)) :: replaceCol t c vs

/-- `df[c] = vs`: overwrite the column when it exists, append it otherwise. -/
def setCol (t : Table) (c : String) (vs : Col) : Table :=
  if hasCol t c then replaceCol t c vs else t ++ [(c, vs)]

/-- Rectangular well-formedness: distinct column names and every column of
length `n`. -/
def WFn (t : Table) (n : Nat) : Prop :=
  (t.map Prod.fst).Nodup ∧ ∀ p ∈ t, (Prod.snd p).length = n

instance : DecidablePred (fun t => WFn t n) := fun _ => by
  unfold WFn; infer_instance

/-- `Series.fillna(d)`: replace absent cells by the default `d`. -/
def fillna (vs : Col) (d : Value) : Col :=
  vs.map (fun v => if v = .absent then d else v)

/-- Python `str(x)` on a cell (`str(nan) = "nan"`). -/
def pyStr : Value → String
  | .absent => "nan"
  | .str s => s
  | .int n => toString n
  | .bool b => if b then "True" else "False"
  | .date y m d => s!"{y}-{m}-{d}"

/-- The ASCII whitespace characters recognised by Python's `str.split()` and
`str.strip()`. -/
def isWS (c : Char) : Bool :=
  c == ' ' || c == '\t' || c == '\n' || c == '\r' || c == '\x0b' || c == '\x0c'

/-- The maximal non-whitespace runs of a character list; `acc` is the
(reversed) run currently being read. -/
def wsTokens : List Char → List Char → List (List Char)
  | acc, [] => if acc.isEmpty then [] else [acc.reverse]
  | acc, c :: rest =>
    if isWS c then
      (if acc.isEmpty then [] else [acc.reverse]) ++ wsTokens [] rest
    else wsTokens (c :: acc) rest

/-- Python `s.split()`: the whitespace-separated tokens of `s`. -/
def pySplit (s : String) : List String :=
  (wsTokens [] s.data).map (fun cs => String.mk cs)

/-- Python `s.strip()`: `s` without leading and trailing whitespace. -/
def pyStrip (s : String) : String :=
  String.mk (((s.data.dropWhile isWS).reverse.dropWhile isWS).reverse)

/-- Parse a `YYYY-MM-DD` date string. -/
def parseYMD (s : String) : Option (Nat × Nat × Nat) :=
  match s.splitOn "-" with
  | [ys, ms, ds] =>
    match ys.toNat?, ms.toNat?, ds.toNat? with
    | some y, some m, some d =>
      if ys.length = 4 && 1 ≤ m && m ≤ 12 && 1 ≤ d && d ≤ 31 then
        some (y, m, d)
      else none
    | _, _, _ => none
  | _ => none

/-- `pd.to_datetime(v, errors='coerce')` on one cell: an already-parsed date
stays, a `YYYY-MM-DD` string parses, everything else coerces to absent. -/
def parseDate : Value → Option (Nat × Nat × Nat)
  | .date y m d => some (y, m, d)
  | .str s => parseYMD s
  | _ => none

/-- The datetime cell produced by coercion (`NaT` for unparseable). -/
def dateValue : Option (Nat × Nat × Nat) → Value
  | some (y, m, d) => .date y m d
  | none => .absent

/-- `Series.dt.year` of a coerced cell (`NaN` for `NaT`). -/
def yearValue : Option (Nat × Nat × Nat) → Value
  | some (y, _, _) => .int y
  | none => .absent

/-- `Series.dt.month` of a coerced cell (`NaN` for `NaT`). -/
def monthValue : Option (Nat × Nat × Nat) → Value
  | some (_, m, _) => .int m
  | none => .absent

/-- The years of the rows whose `publish_time` parsed. -/
def knownYears (parsed : List (Option (Nat × Nat × Nat))) : List Int :=
  parsed.filterMap (fun o => o.map (fun x => (x.1 : Int)))

/-- One step of the mode scan: keep the candidate with the larger
multiplicity in `l`, preferring the smaller value on ties. -/
def modeStep (l : List Int) (best : Option Int) (y : Int) : Option Int :=
  match best with
  | none => some y
  | some b =>
    if l.count y > l.count b || (l.count y == l.count b && y < b) then some y
    else some b

/-- `Series.mode()[0]` over the non-absent values `l`: the smallest value of
maximal multiplicity, `none` when `l` is empty (pandas returns the modes
sorted ascending; the pipeline takes the first). -/
def modeOf (l : List Int) : Option Int :=
  l.foldl (modeStep l) none

/-- `handle_dates` (`data_cleaning.py` lines 29-47): coerce `publish_time`,
extract `publication_year`/`publication_month`, and fill absent years with
the mode year when at least one row has a year. -/
def handle_dates (t : Table) : Except PyError Table :=
  match getCol t "publish_time" with
  | .error e => .error e
  | .ok pub =>
    let parsed := pub.map parseDate
    let t1 := setCol t "publish_time" (parsed.map dateValue)
    let t2 := setCol t1 "publication_year" (parsed.map yearValue)
    let t3 := setCol t2 "publication_month" (parsed.map monthValue)
    match modeOf (knownYears parsed) with
    | some m =>
      .ok (setCol t3 "publication_year" (fillna (parsed.map yearValue) (.int m)))
    | none => .ok t3

/-- The keep-mask of `df[~(df['title'].isna() & df['abstract'].isna())]`:
keep a row unless both cells are absent.  It is applied to the columns as
they are at filter time (after the fills). -/
def keepMask (titles abstracts : Col) : List Bool :=
  (titles.zip abstracts).map
    (fun p => !(decide (p.1 = Value.absent) && decide (p.2 = Value.absent)))

/-- Restrict one column to the rows marked `true` in the mask. -/
def applyMask (vs : Col) (mask : List Bool) : Col :=
  ((vs.zip mask).filter (fun p => p.2)).map Prod.fst

/-- Restrict every column of the frame to the rows marked `true`. -/
def maskFilter (t : Table) (mask : List Bool) : Table :=
  t.map (fun p => (p.1, applyMask p.2 mask))

/-- `handle_missing_values` (`data_cleaning.py` lines 49-68): fill `title`,
`abstract` and `journal` with their defaults, then drop the rows whose
(already filled) `title` and `abstract` are both absent. -/
def handle_missing_values (t : Table) : Except PyError Table :=
  match getCol t "title" with
  | .error e => .error e
  | .ok ttl =>
    let ttlF := fillna ttl (.str "Unknown Title")
    let t1 := setCol t "title" ttlF
    match getCol t1 "abstract" with
    | .error e => .error e
    | .ok ab =>
      let abF := fillna ab (.str "")
      let t2 := setCol t1 "abstract" abF
      match getCol t2 "journal" with
      | .error e => .error e
      | .ok jr =>
        let t3 := setCol t2 "journal" (fillna jr (.str "Unknown Journal"))
        .ok (maskFilter t3 (keepMask ttlF abF))

/-- `create_new_features` (`data_cleaning.py` lines 70-86): derive
`abstract_word_count`, `title_word_count`, `has_abstract` and
`source_type`. -/
def create_new_features (t : Table) : Except PyError Table :=
  match getCol t "abstract" with
  | .error e => .error e
  | .ok ab =>
    let t1 := setCol t "abstract_word_count"
      (ab.map (fun v => .int ((pySplit (pyStr v)).length : Int)))
    match getCol t1 "title" with
    | .error e => .error e
    | .ok ttl =>
      let t2 := setCol t1 "title_word_count"
        (ttl.map (fun v => .int ((pySplit (pyStr v)).length : Int)))
      let t3 := setCol t2 "has_abstract"
        (ab.map (fun v => .bool (decide (0 < (pyStrip (pyStr v)).length))))
      match getCol t3 "source_x" with
      | .error e => .error e
      | .ok sx => .ok (setCol t3 "source_type" (fillna sx (.str "Unknown")))

/-- `clean_data` (`data_cleaning.py` lines 7-27): copy the frame (implicit in
the pure embedding) and run the three cleaning stages. -/
def clean_data (t : Table) : Except PyError Table :=
  match handle_dates t with
  | .error e => .error e
  | .ok t1 =>
    match handle_missing_values t1 with
    | .error e => .error e
    | .ok t2 => create_new_features t2

/-- The dashboard's `clean_data` (`app.py` lines 114-126): coerce dates,
extract the year, fill `title`/`abstract`/`journal`, and derive
`abstract_word_count` and `has_abstract`. -/
def app_clean_data (t : Table) : Except PyError Table :=
  match getCol t "publish_time" with
  | .error e => .error e
  | .ok pub =>
    let parsed := pub.map parseDate
    let t1 := setCol t "publish_time" (parsed.map dateValue)
    let t2 := setCol t1 "publication_year" (parsed.map yearValue)
    match getCol t2 "title" with
    | .error e => .error e
    | .ok ttl =>
      let t3 := setCol t2 "title" (fillna ttl (.str "Unknown Title"))
      match getCol t3 "abstract" with
      | .error e => .error e
      | .ok ab =>
        let abF := fillna ab (.str "")
        let t4 := setCol t3 "abstract" abF
        match getCol t4 "journal" with
        | .error e => .error e
        | .ok jr =>
          let t5 := setCol t4 "journal" (fillna jr (.str "Unknown Journal"))
          let t6 := setCol t5 "abstract_word_count"
            (abF.map (fun v => .int ((pySplit (pyStr v)).length : Int)))
          .ok (setCol t6 "has_abstract"
            (abF.map (fun v => .bool (decide (0 < (pyStrip (pyStr v)).length)))))

/-- The hardcoded stopword set of `analyze_titles`
(`analysis_visualization.py` lines 165-168). -/
def stop_words : List String :=
  ["the", "and", "of", "in", "to", "a", "for", "with", "on", "by",
   "from", "as", "an", "at", "that", "this", "is", "are", "was", "were",
   "be", "been", "have", "has", "had", "do", "does", "did", "will",
   "would", "could", "should", "may", "might", "must", "can"]

/-- Whether a character is a Python word character (`\w`, ASCII fragment):
letter, digit or underscore. -/
def isWordChar (c : Char) : Bool := c.isAlpha || c.isDigit || c == '_'

/-- Emit the finished (reversed) letter run `run` as a token of the regex
`\b[a-zA-Z]{3,}\b` scan: it is kept when it has at least three letters and
neither the character before the run (`prev`) nor the character after it
(`next`) is a word character. -/
def emitRun (prev : Option Char) (run : List Char) (next : Option Char) :
    List String :=
  if run.length ≥ 3 && !(prev.any isWordChar) && !(next.any isWordChar) then
    [String.mk run.reverse]
  else []

/-- The scan of `re.findall(r'\b[a-zA-Z]{3,}\b', s)`: `prev` is the last
character seen before the current letter run, `run` the (reversed) current
letter run. -/
def tokScan : Option Char → List Char → List Char → List String
  | prev, run, [] => emitRun prev run none
  | prev, run, c :: rest =>
    if c.isAlpha then tokScan prev (c :: run) rest
    else emitRun prev run (some c) ++ tokScan (some c) [] rest

/-- `re.findall(r'\b[a-zA-Z]{3,}\b', s)`: the maximal ASCII-letter runs of
length at least 3 that are not adjacent to another word character. -/
def findTokens (s : String) : List String := tokScan none [] s.data

/-- Python `s.lower()` (ASCII model). -/
def pyLower (s : String) : String := String.mk (s.data.map Char.toLower)

/-- One step of a hash-map tally (`collections.Counter` /
`value_counts`'s hash table): bump the count of `w`, inserting it at the end
(insertion order = first-occurrence order) when new. -/
def tallyInsert {α : Type} [DecidableEq α] (acc : List (α × Nat)) (w : α) :
    List (α × Nat) :=
  if acc.any (fun p => decide (p.1 = w)) then
    acc.map (fun p => if p.1 = w then (p.1, p.2 + 1) else p)
  else acc ++ [(w, 1)]

/-- The tally of a list as an association list in first-occurrence order
(`collections.Counter(xs)`). -/
def tallyOf {α : Type} [DecidableEq α] (xs : List α) : List (α × Nat) :=
  xs.foldl tallyInsert []

/-- Stable insertion: place `x` before the first element `y` with `le x y`.
Since a stable sort is extensionally unique, stable insertion sort models
Python's stable sorts (`sorted`, `heapq.nlargest`, pandas `kind="stable"`)
exactly. -/
def insertLe {α : Type} (le : α → α → Bool) (x : α) : List α → List α
  | [] => [x]
  | y :: rest => if le x y then x :: y :: rest else y :: insertLe le x rest

/-- Stable sort by the Bool comparison `le`. -/
def stableSort {α : Type} (le : α → α → Bool) (l : List α) : List α :=
  l.foldr (insertLe le) []

/-- Stable sort by count descending (`sorted(..., reverse=True)` /
`heapq.nlargest` over counter items). -/
def sortByCountDesc {α : Type} (l : List (α × Nat)) : List (α × Nat) :=
  stableSort (fun a b => decide (b.2 ≤ a.2)) l

/-- `Counter.most_common(n)`: the `n` items of largest count, ties in
first-occurrence order. -/
def mostCommon {α : Type} (n : Nat) (l : List (α × Nat)) : List (α × Nat) :=
  (sortByCountDesc l).take n

/-- `analyze_titles` (`analysis_visualization.py` lines 154-196): join the
non-absent titles with spaces, lower-case, tokenize with the word-boundary
regex, drop stopwords, count, and take the 20 most common.  Line 180
(`words, counts = zip(*common_words)`) raises a `ValueError` when the
frequency list is empty. -/
def analyze_titles (t : Table) : Except PyError (List (String × Nat)) :=
  match getCol t "title" with
  | .error e => .error e
  | .ok titles =>
    let all_titles :=
      String.intercalate " "
        ((titles.filter (fun v => !decide (v = Value.absent))).map pyStr)
    let words := findTokens (pyLower all_titles)
    let filtered_words := words.filter (fun w => !stop_words.contains w)
    let common_words := mostCommon 20 (tallyOf filtered_words)
    if common_words.isEmpty then .error .emptyUnpack else .ok common_words

/-- `Series.value_counts()`: drop absent cells, count distinct values in
first-occurrence order, and sort by count descending with a stable sort. -/
def value_counts (vs : Col) : List (Value × Nat) :=
  sortByCountDesc (tallyOf (vs.filter (fun v => !decide (v = Value.absent))))

/-- The spec's `top_n(table, column, n)` abstraction of the repository idiom
`df[column].value_counts().head(n)` (`analysis_visualization.py` lines 130
and 205). -/
def top_n (t : Table) (c : String) (n : Nat) :
    Except PyError (List (Value × Nat)) :=
  match getCol t c with
  | .error e => .error e
  | .ok vs => .ok ((value_counts vs).take n)

/-- The integer key of a `publication_year` index entry (the column is
numeric in the pipeline). -/
def intKey : Value → Int
  | .int n => n
  | _ => 0

/-- The computational core of `analyze_publication_trends`
(`analysis_visualization.py` lines 111-152): the per-year counts
(`value_counts().sort_index()` restricted to years `≥ 2019`) and the top 10
journals; the chart rendering is out of scope. -/
def analyze_publication_trends (t : Table) :
    Except PyError (List (Value × Nat) × List (Value × Nat)) :=
  match getCol t "publication_year" with
  | .error e => .error e
  | .ok py =>
    let yearly :=
      (stableSort (fun a b => decide (intKey a.1 ≤ intKey b.1))
          (value_counts py)).filter
        (fun p => decide (2019 ≤ intKey p.1))
    match getCol t "journal" with
    | .error e => .error e
    | .ok jr => .ok (yearly, (value_counts jr).take 10)

/-- The computational core of `analyze_sources` (`analysis_visualization.py`
lines 198-215): the top 15 sources; the chart rendering is out of scope. -/
def analyze_sources (t : Table) : Except PyError (List (Value × Nat)) :=
  match getCol t "source_x" with
  | .error e => .error e
  | .ok sx => .ok ((value_counts sx).take 15)

/-- The maximal ASCII-letter runs of a character list (`acc` is the reversed
run currently being read), with no word-boundary side condition. -/
def alphaRuns : List Char → List Char → List (List Char)
  | acc, [] => if acc.isEmpty then [] else [acc.reverse]
  | acc, c :: rest =>
    if c.isAlpha then alphaRuns (c :: acc) rest
    else (if acc.isEmpty then [] else [acc.reverse]) ++ alphaRuns [] rest

/-- Claim-side word frequency, following the words of the specification for
C4: lower-case the plain concatenation of the non-absent values, tokenize
into the maximal alphabetic runs of length at least `min_len = 3`, drop
stopwords, count, and return the 20 most frequent (count descending, ties
first-encountered).  Stated only to be compared against `analyze_titles`. -/
def claimed_word_frequency (titles : Col) : List (String × Nat) :=
  let all :=
    String.join ((titles.filter (fun v => !decide (v = Value.absent))).map pyStr)
  let toks :=
    ((alphaRuns [] (pyLower all).data).filter (fun r => r.length ≥ 3)).map
      (fun cs => String.mk cs)
  let filtered := toks.filter (fun w => !stop_words.contains w)
  mostCommon 20 (tallyOf filtered)

/-! ## Basic lemmas about the table operations -/

/-- The column names of a frame. -/
def colNames (t : Table) : List String := t.map Prod.fst

theorem getCol_of_hasCol_false {t : Table} {c : String}
    (h : hasCol t c = false) : getCol t c = .error (.missingColumn c) := by
  induction t with
  | nil => rfl
  | cons p t ih =>
    obtain ⟨n, vs⟩ := p
    simp only [hasCol, Bool.or_eq_false_iff, decide_eq_false_iff_not] at h
    rw [getCol, if_neg h.1]
    exact ih h.2

theorem getCol_of_hasCol_true {t : Table} {c : String}
    (h : hasCol t c = true) : ∃ vs, getCol t c = .ok vs := by
  induction t with
  | nil => simp [hasCol] at h
  | cons p t ih =>
    obtain ⟨n, vs⟩ := p
    by_cases hn : n = c
    · exact ⟨vs, by rw [getCol, if_pos hn]⟩
    · simp only [hasCol, Bool.or_eq_true, decide_eq_true_eq, hn, false_or] at h
      obtain ⟨ws, hw⟩ := ih h
      exact ⟨ws, by rw [getCol, if_neg hn]; exact hw⟩

theorem hasCol_of_getCol_ok {t : Table} {c : String} {vs : Col}
    (h : getCol t c = .ok vs) : hasCol t c = true := by
  induction t with
  | nil => simp [getCol] at h
  | cons p t ih =>
    obtain ⟨n, w⟩ := p
    by_cases hn : n = c
    · simp [hasCol, hn]
    · rw [getCol, if_neg hn] at h
      simp [hasCol, hn, ih h]

theorem hasCol_iff_mem {t : Table} {c : String} :
    hasCol t c = true ↔ c ∈ colNames t := by
  induction t with
  | nil => simp [hasCol, colNames]
  | cons p t ih =>
    obtain ⟨n, vs⟩ := p
    simp only [hasCol, Bool.or_eq_true, decide_eq_true_eq, colNames,
      List.map_cons, List.mem_cons, ih]
    constructor
    · rintro (h | h)
      · exact Or.inl h.symm
      · exact Or.inr h
    · rintro (h | h)
      · exact Or.inl h.symm
      · exact Or.inr h

theorem colNames_replaceCol {t : Table} {c : String} {vs : Col} :
    colNames (replaceCol t c vs) = colNames t := by
  induction t with
  | nil => rfl
  | cons p t ih =>
    obtain ⟨n, w⟩ := p
    by_cases hn : n = c
    · rw [replaceCol, if_pos hn]
      simpa [colNames] using ih
    · rw [replaceCol, if_neg hn]
      simpa [colNames] using ih

theorem colNames_setCol {t : Table} {c : String} {vs : Col} :
    colNames (setCol t c vs) =
      if hasCol t c then colNames t else colNames t ++ [c] := by
  unfold setCol
  by_cases h : hasCol t c
  · simp [h, colNames_replaceCol]
  · simp [h, colNames]

theorem hasCol_setCol_self {t : Table} {c : String} {vs : Col} :
    hasCol (setCol t c vs) c = true := by
  rw [hasCol_iff_mem, colNames_setCol]
  by_cases h : hasCol t c
  · simpa [h] using hasCol_iff_mem.mp h
  · simp [h]

theorem hasCol_setCol_ne {t : Table} {c c' : String} {vs : Col}
    (h : c' ≠ c) : hasCol (setCol t c vs) c' = hasCol t c' := by
  by_cases hc : hasCol t c'
  · rw [hc]
    rw [hasCol_iff_mem] at hc ⊢
    rw [colNames_setCol]
    by_cases h2 : hasCol t c <;> simp [h2, hc]
  · simp only [Bool.not_eq_true] at hc
    rw [hc]
    have hmem : c' ∉ colNames t := fun hm =>
      absurd hc (by simp [hasCol_iff_mem.mpr hm])
    rw [← Bool.not_eq_true, hasCol_iff_mem, colNames_setCol]
    by_cases h2 : hasCol t c <;> simp [h2, hmem, h]

theorem getCol_replaceCol_self {t : Table} {c : String} {vs : Col}
    (h : hasCol t c = true) : getCol (replaceCol t c vs) c = .ok vs := by
  induction t with
  | nil => simp [hasCol] at h
  | cons p t ih =>
    obtain ⟨n, w⟩ := p
    by_cases hn : n = c
    · rw [replaceCol, if_pos hn, getCol, if_pos hn]
    · simp only [hasCol, Bool.or_eq_true, decide_eq_true_eq, hn, false_or] at h
      rw [replaceCol, if_neg hn, getCol, if_neg hn]
      exact ih h

theorem getCol_append_not_mem {t : Table} {c : String} {q : String × Col}
    (h : hasCol t c = false) : getCol (t ++ [q]) c = getCol [q] c := by
  induction t with
  | nil => rfl
  | cons p t ih =>
    obtain ⟨n, w⟩ := p
    simp only [hasCol, Bool.or_eq_false_iff, decide_eq_false_iff_not] at h
    rw [List.cons_append, getCol, if_neg h.1]
    exact ih h.2

theorem getCol_append_left {t u : Table} {c : String}
    (h : hasCol t c = true) : getCol (t ++ u) c = getCol t c := by
  induction t with
  | nil => simp [hasCol] at h
  | cons p t ih =>
    obtain ⟨n, w⟩ := p
    rw [List.cons_append, getCol, getCol]
    by_cases hn : n = c
    · rw [if_pos hn, if_pos hn]
    · rw [if_neg hn, if_neg hn]
      simp only [hasCol, Bool.or_eq_true, decide_eq_true_eq, hn, false_or] at h
      exact ih h

theorem getCol_setCol_self {t : Table} {c : String} {vs : Col} :
    getCol (setCol t c vs) c = .ok vs := by
  unfold setCol
  by_cases h : hasCol t c
  · rw [if_pos h]
    exact getCol_replaceCol_self h
  · simp only [Bool.not_eq_true] at h
    rw [if_neg (by simp [h])]
    rw [getCol_append_not_mem h, getCol, if_pos rfl]

theorem getCol_replaceCol_ne {t : Table} {c c' : String} {vs : Col}
    (h : c' ≠ c) : getCol (replaceCol t c vs) c' = getCol t c' := by
  induction t with
  | nil => rfl
  | cons p t ih =>
    obtain ⟨n, w⟩ := p
    by_cases hn : n = c
    · have hn' : ¬ n = c' := fun hh => h (hh.symm.trans hn)
      rw [replaceCol, if_pos hn, getCol, getCol, if_neg hn']
      have : ¬ c = c' := fun hh => h hh.symm
      rw [if_neg (hn ▸ hn')]
      exact ih
    · rw [replaceCol, if_neg hn, getCol, getCol]
      by_cases hn' : n = c'
      · rw [if_pos hn', if_pos hn']
      · rw [if_neg hn', if_neg hn']
        exact ih

theorem getCol_setCol_ne {t : Table} {c c' : String} {vs : Col}
    (h : c' ≠ c) : getCol (setCol t c vs) c' = getCol t c' := by
  unfold setCol
  by_cases hc : hasCol t c
  · rw [if_pos hc]
    exact getCol_replaceCol_ne h
  · simp only [Bool.not_eq_true] at hc
    rw [if_neg (by simp [hc])]
    by_cases hc' : hasCol t c'
    · exact getCol_append_left hc'
    · simp only [Bool.not_eq_true] at hc'
      rw [getCol_append_not_mem hc', getCol_of_hasCol_false hc', getCol,
        if_neg (fun hh => h hh.symm), getCol]

theorem replaceCol_not_mem {t : Table} {c : String} {vs : Col}
    (h : hasCol t c = false) : replaceCol t c vs = t := by
  induction t with
  | nil => rfl
  | cons q t ih =>
    obtain ⟨m, u⟩ := q
    simp only [hasCol, Bool.or_eq_false_iff, decide_eq_false_iff_not] at h
    rw [replaceCol, if_neg h.1, ih h.2]

theorem replaceCol_eq_self {t : Table} {c : String} {vs : Col}
    (hnd : (colNames t).Nodup) (h : getCol t c = .ok vs) :
    replaceCol t c vs = t := by
  induction t with
  | nil => rfl
  | cons p t ih =>
    obtain ⟨n, w⟩ := p
    simp only [colNames, List.map_cons, List.nodup_cons] at hnd
    by_cases hn : n = c
    · rw [getCol, if_pos hn] at h
      have hwv : w = vs := by injection h
      have hout : hasCol t c = false := by
        rw [← Bool.not_eq_true, hasCol_iff_mem]
        exact fun hm => hnd.1 (by rw [hn]; exact hm)
      rw [replaceCol, if_pos hn, replaceCol_not_mem hout, hwv]
    · rw [getCol, if_neg hn] at h
      rw [replaceCol, if_neg hn, ih hnd.2 h]

theorem setCol_eq_self {t : Table} {c : String} {vs : Col}
    (hnd : (colNames t).Nodup) (h : getCol t c = .ok vs) :
    setCol t c vs = t := by
  unfold setCol
  rw [if_pos (hasCol_of_getCol_ok h)]
  exact replaceCol_eq_self hnd h

theorem replaceCol_replaceCol {t : Table} {c : String} {vs ws : Col} :
    replaceCol (replaceCol t c vs) c ws = replaceCol t c ws := by
  induction t with
  | nil => rfl
  | cons p t ih =>
    obtain ⟨n, w⟩ := p
    by_cases hn : n = c
    · rw [replaceCol, if_pos hn, replaceCol, if_pos hn, replaceCol, if_pos hn,
        ih]
    · rw [replaceCol, if_neg hn, replaceCol, if_neg hn, replaceCol, if_neg hn,
        ih]

theorem hasCol_replaceCol {t : Table} {c c' : String} {vs : Col} :
    hasCol (replaceCol t c vs) c' = hasCol t c' := by
  rw [← Bool.coe_iff_coe, hasCol_iff_mem, hasCol_iff_mem, colNames_replaceCol]

theorem replaceCol_append_not_mem {t : Table} {c : String} {vs ws : Col}
    (h : hasCol t c = false) :
    replaceCol (t ++ [(c, vs)]) c ws = t ++ [(c, ws)] := by
  induction t with
  | nil => simp [replaceCol]
  | cons p t ih =>
    obtain ⟨n, w⟩ := p
    simp only [hasCol, Bool.or_eq_false_iff, decide_eq_false_iff_not] at h
    rw [List.cons_append, replaceCol, if_neg h.1, List.cons_append, ih h.2]

theorem setCol_setCol_same {t : Table} {c : String} {vs ws : Col} :
    setCol (setCol t c vs) c ws = setCol t c ws := by
  by_cases h : hasCol t c
  · have e1 : setCol t c vs = replaceCol t c vs := by
      unfold setCol; rw [if_pos h]
    have e2 : setCol t c ws = replaceCol t c ws := by
      unfold setCol; rw [if_pos h]
    have h' : hasCol (replaceCol t c vs) c = true := by
      rw [hasCol_replaceCol]; exact h
    have e3 : setCol (replaceCol t c vs) c ws
        = replaceCol (replaceCol t c vs) c ws := by
      unfold setCol; rw [if_pos h']
    rw [e1, e3, replaceCol_replaceCol, e2]
  · simp only [Bool.not_eq_true] at h
    have e1 : setCol t c vs = t ++ [(c, vs)] := by
      unfold setCol; rw [if_neg (by simp [h])]
    have e2 : setCol t c ws = t ++ [(c, ws)] := by
      unfold setCol; rw [if_neg (by simp [h])]
    have happ : hasCol (t ++ [(c, vs)]) c = true := by
      rw [hasCol_iff_mem]; simp [colNames]
    have e3 : setCol (t ++ [(c, vs)]) c ws
        = replaceCol (t ++ [(c, vs)]) c ws := by
      unfold setCol; rw [if_pos happ]
    rw [e1, e3, replaceCol_append_not_mem h, e2]

theorem WFn_tail {p : String × Col} {t : Table} {n : Nat}
    (hw : WFn (p :: t) n) : WFn t n := by
  constructor
  · have := hw.1
    simp only [List.map_cons, List.nodup_cons] at this
    exact this.2
  · exact fun q hq => hw.2 q (List.mem_cons_of_mem _ hq)

theorem length_getCol_WFn {t : Table} {n : Nat} {c : String} {vs : Col}
    (hw : WFn t n) (h : getCol t c = .ok vs) : vs.length = n := by
  induction t with
  | nil => simp [getCol] at h
  | cons p t ih =>
    obtain ⟨m, w⟩ := p
    by_cases hm : m = c
    · rw [getCol, if_pos hm] at h
      have : w = vs := by injection h
      rw [← this]
      exact hw.2 (m, w) (List.mem_cons_self _ _)
    · rw [getCol, if_neg hm] at h
      exact ih (WFn_tail hw) h

theorem mem_replaceCol {t : Table} {c : String} {vs : Col} {p : String × Col}
    (hp : p ∈ replaceCol t c vs) : p.2 = vs ∨ p ∈ t := by
  induction t with
  | nil => simp [replaceCol] at hp
  | cons q t ih =>
    obtain ⟨m, u⟩ := q
    by_cases hm : m = c
    · rw [replaceCol, if_pos hm] at hp
      rcases List.mem_cons.mp hp with h1 | h2
      · exact Or.inl (by rw [h1])
      · rcases ih h2 with h3 | h3
        · exact Or.inl h3
        · exact Or.inr (List.mem_cons_of_mem _ h3)
    · rw [replaceCol, if_neg hm] at hp
      rcases List.mem_cons.mp hp with h1 | h2
      · exact Or.inr (by rw [h1]; exact List.mem_cons_self _ _)
      · rcases ih h2 with h3 | h3
        · exact Or.inl h3
        · exact Or.inr (List.mem_cons_of_mem _ h3)

theorem WFn_replaceCol {t : Table} {n : Nat} {c : String} {vs : Col}
    (hw : WFn t n) (hv : vs.length = n) : WFn (replaceCol t c vs) n := by
  constructor
  · show (colNames (replaceCol t c vs)).Nodup
    rw [colNames_replaceCol]
    exact hw.1
  · intro p hp
    rcases mem_replaceCol hp with h1 | h2
    · rw [h1]; exact hv
    · exact hw.2 p h2

theorem WFn_setCol {t : Table} {n : Nat} {c : String} {vs : Col}
    (hw : WFn t n) (hv : vs.length = n) : WFn (setCol t c vs) n := by
  unfold setCol
  by_cases h : hasCol t c
  · rw [if_pos h]
    exact WFn_replaceCol hw hv
  · simp only [Bool.not_eq_true] at h
    rw [if_neg (by simp [h])]
    constructor
    · show (colNames (t ++ [(c, vs)])).Nodup
      have e : colNames (t ++ [(c, vs)]) = colNames t ++ [c] := by
        simp [colNames]
      rw [e, List.nodup_append]
      refine ⟨hw.1, List.nodup_singleton c, fun a ha hb => ?_⟩
      have : a = c := by simpa using hb
      subst this
      exact absurd (hasCol_iff_mem.mpr ha) (by simp [h])
    · intro p hp
      rcases List.mem_append.mp hp with h1 | h2
      · exact hw.2 p h1
      · have : p = (c, vs) := by simpa using h2
        rw [this]; exact hv

/-! ## Lemmas about `fillna`, the keep-mask and the row filter -/

theorem length_fillna {vs : Col} {d : Value} :
    (fillna vs d).length = vs.length := by
  simp [fillna]

theorem fillna_ne_absent {vs : Col} {d : Value} (hd : d ≠ .absent) :
    ∀ v ∈ fillna vs d, v ≠ .absent := by
  intro v hv
  simp only [fillna, List.mem_map] at hv
  obtain ⟨w, _, hw⟩ := hv
  by_cases h : w = Value.absent
  · rw [← hw, if_pos h]; exact hd
  · rw [← hw, if_neg h]; exact h

theorem fillna_of_ne_absent {vs : Col} {d : Value}
    (h : ∀ v ∈ vs, v ≠ .absent) : fillna vs d = vs := by
  induction vs with
  | nil => rfl
  | cons v vs ih =>
    simp only [fillna, List.map_cons]
    rw [if_neg (h v (List.mem_cons_self _ _))]
    have := ih (fun w hw => h w (List.mem_cons_of_mem _ hw))
    simp only [fillna] at this
    rw [this]

theorem fillna_fillna {vs : Col} {d d' : Value} (hd : d ≠ .absent) :
    fillna (fillna vs d) d' = fillna vs d :=
  fillna_of_ne_absent (fillna_ne_absent hd)

theorem keepMask_all_true {ts as_ : Col}
    (h : ∀ v ∈ ts, v ≠ Value.absent) :
    ∀ b ∈ keepMask ts as_, b = true := by
  intro b hb
  simp only [keepMask, List.mem_map] at hb
  obtain ⟨⟨x, y⟩, hxy, hxyb⟩ := hb
  have hx : x ∈ ts := (List.of_mem_zip hxy).1
  have : ¬ x = Value.absent := h x hx
  simp only [← hxyb, Bool.and_eq_true, decide_eq_true_eq]
  simp [this]

theorem length_keepMask {ts as_ : Col} (h : ts.length = as_.length) :
    (keepMask ts as_).length = ts.length := by
  simp [keepMask, List.length_zip, h]

theorem applyMask_all_true {vs : Col} {mask : List Bool}
    (hm : ∀ b ∈ mask, b = true) (hl : vs.length = mask.length) :
    applyMask vs mask = vs := by
  induction vs generalizing mask with
  | nil => rfl
  | cons v vs ih =>
    cases mask with
    | nil => simp at hl
    | cons b mask =>
      have hb : b = true := hm b (List.mem_cons_self _ _)
      subst hb
      simp only [applyMask, List.zip_cons_cons, List.filter_cons_of_pos]
      simp only [List.map_cons]
      have := ih (fun b hb => hm b (List.mem_cons_of_mem _ hb))
        (by simpa using hl)
      simp only [applyMask] at this
      rw [this]

theorem maskFilter_all_true {t : Table} {mask : List Bool} {n : Nat}
    (hw : WFn t n) (hm : ∀ b ∈ mask, b = true) (hl : mask.length = n) :
    maskFilter t mask = t := by
  unfold maskFilter
  have : ∀ p ∈ t, (fun p : String × Col => (p.1, applyMask p.2 mask)) p = p := by
    intro p hp
    have : (p.2).length = mask.length := by rw [hw.2 p hp, hl]
    simp [applyMask_all_true hm this]
  calc t.map (fun p => (p.1, applyMask p.2 mask)) = t.map id :=
        List.map_congr_left this
    _ = t := List.map_id t

/-! ## Normal form of a successful cleaning run -/

/-- The final `publication_year` column of `handle_dates`: the extracted
years, mode-filled when at least one row has a year. -/
def finalYearCol (parsed : List (Option (Nat × Nat × Nat))) : Col :=
  match modeOf (knownYears parsed) with
  | some m => fillna (parsed.map yearValue) (.int m)
  | none => parsed.map yearValue

/-- The derived `abstract_word_count` / `title_word_count` cells. -/
def wcCol (vs : Col) : Col :=
  vs.map (fun v => .int ((pySplit (pyStr v)).length : Int))

/-- The derived `has_abstract` cells. -/
def habCol (vs : Col) : Col :=
  vs.map (fun v => .bool (decide (0 < (pyStrip (pyStr v)).length)))

/-- The cleaned table of a successful `clean_data` run over a rectangular
frame, as an explicit `setCol` chain. -/
def cleanShape (t : Table) (pub ttl ab jr sx : Col) : Table :=
  setCol (setCol (setCol (setCol (setCol (setCol (setCol (setCol (setCol
    (setCol (setCol t
      "publish_time" ((pub.map parseDate).map dateValue))
      "publication_year" ((pub.map parseDate).map yearValue))
      "publication_month" ((pub.map parseDate).map monthValue))
      "publication_year" (finalYearCol (pub.map parseDate)))
      "title" (fillna ttl (.str "Unknown Title")))
      "abstract" (fillna ab (.str "")))
      "journal" (fillna jr (.str "Unknown Journal")))
      "abstract_word_count" (wcCol (fillna ab (.str ""))))
      "title_word_count" (wcCol (fillna ttl (.str "Unknown Title"))))
      "has_abstract" (habCol (fillna ab (.str ""))))
      "source_type" (fillna sx (.str "Unknown"))

theorem handle_dates_ok {t : Table} {n : Nat} {pub : Col}
    (hw : WFn t n) (hpub : getCol t "publish_time" = .ok pub) :
    handle_dates t = .ok
      (setCol (setCol (setCol (setCol t
        "publish_time" ((pub.map parseDate).map dateValue))
        "publication_year" ((pub.map parseDate).map yearValue))
        "publication_month" ((pub.map parseDate).map monthValue))
        "publication_year" (finalYearCol (pub.map parseDate))) := by
  have hlen : pub.length = n := length_getCol_WFn hw hpub
  simp only [handle_dates, hpub]
  cases hm : modeOf (knownYears (pub.map parseDate)) with
  | some m =>
    simp only []
    rw [finalYearCol, hm]
  | none =>
    simp only []
    rw [finalYearCol, hm]
    have hw3 : WFn (setCol (setCol (setCol t
        "publish_time" ((pub.map parseDate).map dateValue))
        "publication_year" ((pub.map parseDate).map yearValue))
        "publication_month" ((pub.map parseDate).map monthValue)) n := by
      refine WFn_setCol (WFn_setCol (WFn_setCol hw ?_) ?_) ?_ <;>
        simp [hlen]
    have hget : getCol (setCol (setCol (setCol t
        "publish_time" ((pub.map parseDate).map dateValue))
        "publication_year" ((pub.map parseDate).map yearValue))
        "publication_month" ((pub.map parseDate).map monthValue))
        "publication_year" = .ok ((pub.map parseDate).map yearValue) := by
      rw [getCol_setCol_ne (by decide), getCol_setCol_self]
    rw [setCol_eq_self hw3.1 hget]

theorem handle_missing_values_ok {t : Table} {n : Nat} {ttl ab jr : Col}
    (hw : WFn t n) (httl : getCol t "title" = .ok ttl)
    (hab : getCol t "abstract" = .ok ab)
    (hjr : getCol t "journal" = .ok jr) :
    handle_missing_values t = .ok
      (setCol (setCol (setCol t
        "title" (fillna ttl (.str "Unknown Title")))
        "abstract" (fillna ab (.str "")))
        "journal" (fillna jr (.str "Unknown Journal"))) := by
  have hlt : ttl.length = n := length_getCol_WFn hw httl
  have hla : ab.length = n := length_getCol_WFn hw hab
  simp only [handle_missing_values, httl]
  rw [getCol_setCol_ne (by decide), hab]
  simp only []
  rw [getCol_setCol_ne (by decide), getCol_setCol_ne (by decide), hjr]
  simp only []
  have hw3 : WFn (setCol (setCol (setCol t
      "title" (fillna ttl (.str "Unknown Title")))
      "abstract" (fillna ab (.str "")))
      "journal" (fillna jr (.str "Unknown Journal"))) n := by
    refine WFn_setCol (WFn_setCol (WFn_setCol hw ?_) ?_) ?_ <;>
      simp [length_fillna, hlt, hla, length_getCol_WFn hw hjr]
  rw [maskFilter_all_true hw3
    (keepMask_all_true (fillna_ne_absent (by decide)))
    (by rw [length_keepMask (by rw [length_fillna, length_fillna, hlt, hla]),
      length_fillna, hlt])]

theorem create_new_features_ok {t : Table} {ab ttl sx : Col}
    (hab : getCol t "abstract" = .ok ab)
    (httl : getCol t "title" = .ok ttl)
    (hsx : getCol t "source_x" = .ok sx) :
    create_new_features t = .ok
      (setCol (setCol (setCol (setCol t
        "abstract_word_count" (wcCol ab))
        "title_word_count" (wcCol ttl))
        "has_abstract" (habCol ab))
        "source_type" (fillna sx (.str "Unknown"))) := by
  simp only [create_new_features, hab]
  rw [getCol_setCol_ne (by decide), httl]
  simp only []
  rw [getCol_setCol_ne (by decide), getCol_setCol_ne (by decide),
    getCol_setCol_ne (by decide), hsx]
  simp only [wcCol, habCol]

theorem length_finalYearCol {parsed : List (Option (Nat × Nat × Nat))} :
    (finalYearCol parsed).length = parsed.length := by
  unfold finalYearCol
  cases modeOf (knownYears parsed) <;> simp [length_fillna]

theorem clean_data_shape {t : Table} {n : Nat} {pub ttl ab jr sx : Col}
    (hw : WFn t n)
    (hpub : getCol t "publish_time" = .ok pub)
    (httl : getCol t "title" = .ok ttl)
    (hab : getCol t "abstract" = .ok ab)
    (hjr : getCol t "journal" = .ok jr)
    (hsx : getCol t "source_x" = .ok sx) :
    clean_data t = .ok (cleanShape t pub ttl ab jr sx) := by
  have hlp : pub.length = n := length_getCol_WFn hw hpub
  have hw1 : WFn (setCol (setCol (setCol (setCol t
      "publish_time" ((pub.map parseDate).map dateValue))
      "publication_year" ((pub.map parseDate).map yearValue))
      "publication_month" ((pub.map parseDate).map monthValue))
      "publication_year" (finalYearCol (pub.map parseDate))) n := by
    refine WFn_setCol (WFn_setCol (WFn_setCol (WFn_setCol hw ?_) ?_) ?_) ?_ <;>
      simp [hlp, length_finalYearCol]
  have httl1 : getCol (setCol (setCol (setCol (setCol t
      "publish_time" ((pub.map parseDate).map dateValue))
      "publication_year" ((pub.map parseDate).map yearValue))
      "publication_month" ((pub.map parseDate).map monthValue))
      "publication_year" (finalYearCol (pub.map parseDate))) "title"
      = .ok ttl := by
    rw [getCol_setCol_ne (by decide), getCol_setCol_ne (by decide),
      getCol_setCol_ne (by decide), getCol_setCol_ne (by decide)]
    exact httl
  have hab1 : getCol (setCol (setCol (setCol (setCol t
      "publish_time" ((pub.map parseDate).map dateValue))
      "publication_year" ((pub.map parseDate).map yearValue))
      "publication_month" ((pub.map parseDate).map monthValue))
      "publication_year" (finalYearCol (pub.map parseDate))) "abstract"
      = .ok ab := by
    rw [getCol_setCol_ne (by decide), getCol_setCol_ne (by decide),
      getCol_setCol_ne (by decide), getCol_setCol_ne (by decide)]
    exact hab
  have hjr1 : getCol (setCol (setCol (setCol (setCol t
      "publish_time" ((pub.map parseDate).map dateValue))
      "publication_year" ((pub.map parseDate).map yearValue))
      "publication_month" ((pub.map parseDate).map monthValue))
      "publication_year" (finalYearCol (pub.map parseDate))) "journal"
      = .ok jr := by
    rw [getCol_setCol_ne (by decide), getCol_setCol_ne (by decide),
      getCol_setCol_ne (by decide), getCol_setCol_ne (by decide)]
    exact hjr
  have hsx1 : getCol (setCol (setCol (setCol (setCol t
      "publish_time" ((pub.map parseDate).map dateValue))
      "publication_year" ((pub.map parseDate).map yearValue))
      "publication_month" ((pub.map parseDate).map monthValue))
      "publication_year" (finalYearCol (pub.map parseDate))) "source_x"
      = .ok sx := by
    rw [getCol_setCol_ne (by decide), getCol_setCol_ne (by decide),
      getCol_setCol_ne (by decide), getCol_setCol_ne (by decide)]
    exact hsx
  simp only [clean_data, handle_dates_ok hw hpub]
  simp only [handle_missing_values_ok hw1 httl1 hab1 hjr1]
  have hab2 : getCol (setCol (setCol (setCol (setCol (setCol (setCol (setCol t
      "publish_time" ((pub.map parseDate).map dateValue))
      "publication_year" ((pub.map parseDate).map yearValue))
      "publication_month" ((pub.map parseDate).map monthValue))
      "publication_year" (finalYearCol (pub.map parseDate)))
      "title" (fillna ttl (.str "Unknown Title")))
      "abstract" (fillna ab (.str "")))
      "journal" (fillna jr (.str "Unknown Journal"))) "abstract"
      = .ok (fillna ab (.str "")) := by
    rw [getCol_setCol_ne (by decide), getCol_setCol_self]
  have httl2 : getCol (setCol (setCol (setCol (setCol (setCol (setCol (setCol t
      "publish_time" ((pub.map parseDate).map dateValue))
      "publication_year" ((pub.map parseDate).map yearValue))
      "publication_month" ((pub.map parseDate).map monthValue))
      "publication_year" (finalYearCol (pub.map parseDate)))
      "title" (fillna ttl (.str "Unknown Title")))
      "abstract" (fillna ab (.str "")))
      "journal" (fillna jr (.str "Unknown Journal"))) "title"
      = .ok (fillna ttl (.str "Unknown Title")) := by
    rw [getCol_setCol_ne (by decide), getCol_setCol_ne (by decide),
      getCol_setCol_self]
  have hsx2 : getCol (setCol (setCol (setCol (setCol (setCol (setCol (setCol t
      "publish_time" ((pub.map parseDate).map dateValue))
      "publication_year" ((pub.map parseDate).map yearValue))
      "publication_month" ((pub.map parseDate).map monthValue))
      "publication_year" (finalYearCol (pub.map parseDate)))
      "title" (fillna ttl (.str "Unknown Title")))
      "abstract" (fillna ab (.str "")))
      "journal" (fillna jr (.str "Unknown Journal"))) "source_x"
      = .ok sx := by
    rw [getCol_setCol_ne (by decide), getCol_setCol_ne (by decide),
      getCol_setCol_ne (by decide)]
    exact hsx1
  simp only [create_new_features_ok hab2 httl2 hsx2]
  rfl

theorem WFn_cleanShape {t : Table} {n : Nat} {pub ttl ab jr sx : Col}
    (hw : WFn t n)
    (hlp : pub.length = n) (hlt : ttl.length = n) (hla : ab.length = n)
    (hlj : jr.length = n) (hls : sx.length = n) :
    WFn (cleanShape t pub ttl ab jr sx) n := by
  unfold cleanShape
  refine WFn_setCol (WFn_setCol (WFn_setCol (WFn_setCol (WFn_setCol
    (WFn_setCol (WFn_setCol (WFn_setCol (WFn_setCol (WFn_setCol
    (WFn_setCol hw ?_) ?_) ?_) ?_) ?_) ?_) ?_) ?_) ?_) ?_) ?_ <;>
    simp [hlp, hlt, hla, hlj, hls, length_finalYearCol, length_fillna,
      wcCol, habCol]

/-! ## Lemmas about the mode -/

theorem modeStep_pos {l : List Int} {b y : Int}
    (h : (decide (l.count y > l.count b)
      || (l.count y == l.count b && decide (y < b))) = true) :
    modeStep l (some b) y = some y := by
  simp only [modeStep]
  rw [if_pos h]

theorem modeStep_neg {l : List Int} {b y : Int}
    (h : ¬ (decide (l.count y > l.count b)
      || (l.count y == l.count b && decide (y < b))) = true) :
    modeStep l (some b) y = some b := by
  simp only [modeStep]
  rw [if_neg h]

theorem modeStep_some {l : List Int} {b : Int} (y : Int) :
    ∃ b', modeStep l (some b) y = some b' ∧ (b' = y ∨ b' = b) := by
  by_cases h : (decide (l.count y > l.count b)
      || (l.count y == l.count b && decide (y < b))) = true
  · exact ⟨y, modeStep_pos h, Or.inl rfl⟩
  · exact ⟨b, modeStep_neg h, Or.inr rfl⟩

theorem foldl_modeStep_isSome {l : List Int} :
    ∀ (ys : List Int) (b : Int),
      ∃ m, ys.foldl (modeStep l) (some b) = some m := by
  intro ys
  induction ys with
  | nil => exact fun b => ⟨b, rfl⟩
  | cons y ys ih =>
    intro b
    obtain ⟨b', hb', _⟩ := modeStep_some (l := l) (b := b) y
    rw [List.foldl_cons, hb']
    exact ih b'

theorem foldl_modeStep_mem {l : List Int} :
    ∀ (ys : List Int) (b : Int), b ∈ l → (∀ y ∈ ys, y ∈ l) →
      ∀ m, ys.foldl (modeStep l) (some b) = some m → m ∈ l := by
  intro ys
  induction ys with
  | nil =>
    intro b hb _ m hm
    rw [List.foldl_nil] at hm
    obtain rfl : b = m := by injection hm
    exact hb
  | cons y ys ih =>
    intro b hb hys m hm
    obtain ⟨b', hb', hor⟩ := modeStep_some (l := l) (b := b) y
    rw [List.foldl_cons, hb'] at hm
    have hb'l : b' ∈ l := by
      rcases hor with h | h
      · rw [h]; exact hys y (List.mem_cons_self _ _)
      · rw [h]; exact hb
    exact ih b' hb'l (fun z hz => hys z (List.mem_cons_of_mem _ hz)) m hm

theorem foldl_modeStep_count {l : List Int} :
    ∀ (ys : List Int) (b m : Int), ys.foldl (modeStep l) (some b) = some m →
      l.count b ≤ l.count m ∧ ∀ y ∈ ys, l.count y ≤ l.count m := by
  intro ys
  induction ys with
  | nil =>
    intro b m hm
    rw [List.foldl_nil] at hm
    obtain rfl : b = m := by injection hm
    exact ⟨le_refl _, by simp⟩
  | cons y ys ih =>
    intro b m hm
    rw [List.foldl_cons] at hm
    by_cases hc : (decide (l.count y > l.count b)
        || (l.count y == l.count b && decide (y < b))) = true
    · rw [modeStep_pos hc] at hm
      obtain ⟨h1, h2⟩ := ih y m hm
      have hby : l.count b ≤ l.count y := by
        rcases Bool.or_eq_true_iff.mp hc with h | h
        · exact le_of_lt (by simpa using h)
        · have := (Bool.and_eq_true_iff.mp h).1
          simp only [beq_iff_eq] at this
          rw [this]
      refine ⟨le_trans hby h1, fun z hz => ?_⟩
      rcases List.mem_cons.mp hz with h | h
      · rw [h]; exact h1
      · exact h2 z h
    · rw [modeStep_neg hc] at hm
      obtain ⟨h1, h2⟩ := ih b m hm
      have hyb : l.count y ≤ l.count b := by
        have h1' : ¬ (l.count y > l.count b) := by
          intro hgt
          exact hc (by simp [hgt])
        omega
      refine ⟨h1, fun z hz => ?_⟩
      rcases List.mem_cons.mp hz with h | h
      · rw [h]; exact le_trans hyb h1
      · exact h2 z h

theorem modeOf_isSome {l : List Int} (h : l ≠ []) :
    ∃ m, modeOf l = some m := by
  cases l with
  | nil => exact absurd rfl h
  | cons x xs =>
    unfold modeOf
    rw [List.foldl_cons]
    have hx : modeStep (x :: xs) none x = some x := rfl
    rw [hx]
    exact foldl_modeStep_isSome xs x

theorem modeOf_spec {l : List Int} {m : Int} (h : modeOf l = some m) :
    m ∈ l ∧ ∀ y : Int, l.count y ≤ l.count m := by
  cases l with
  | nil => simp [modeOf] at h
  | cons x xs =>
    unfold modeOf at h
    rw [List.foldl_cons] at h
    have hx : modeStep (x :: xs) none x = some x := rfl
    rw [hx] at h
    have hmem := foldl_modeStep_mem (l := x :: xs) xs x
      (List.mem_cons_self _ _) (fun y hy => List.mem_cons_of_mem _ hy) m h
    have hcnt := foldl_modeStep_count (l := x :: xs) xs x m h
    refine ⟨hmem, fun y => ?_⟩
    by_cases hy : y ∈ x :: xs
    · rcases List.mem_cons.mp hy with h1 | h1
      · rw [h1]; exact hcnt.1
      · exact hcnt.2 y h1
    · rw [List.count_eq_zero.mpr hy]
      exact Nat.zero_le _

/-! ## Claim C3 -/

theorem getCol_cleanShape_publication_year
    {t : Table} {pub ttl ab jr sx : Col} :
    getCol (cleanShape t pub ttl ab jr sx) "publication_year"
      = .ok (finalYearCol (pub.map parseDate)) := by
  unfold cleanShape
  rw [getCol_setCol_ne (by decide), getCol_setCol_ne (by decide),
    getCol_setCol_ne (by decide), getCol_setCol_ne (by decide),
    getCol_setCol_ne (by decide), getCol_setCol_ne (by decide),
    getCol_setCol_ne (by decide), getCol_setCol_self]

theorem knownYears_eq_nil_iff {parsed : List (Option (Nat × Nat × Nat))} :
    knownYears parsed = [] ↔ ∀ o ∈ parsed, o = none := by
  unfold knownYears
  rw [List.filterMap_eq_nil_iff]
  constructor
  · intro h o ho
    have := h o ho
    cases o with
    | none => rfl
    | some x => simp at this
  · intro h o ho
    rw [h o ho]
    rfl

/-- Claim C3: after cleaning, every row whose `publish_time` was absent or
unparseable has `publication_year` equal to the mode year of the batch (a
year of maximal multiplicity among the rows with a parseable date); if no
row has a parseable date, `publication_year` stays absent on every row; and
unparseable dates raise no error (cleaning succeeds). -/
theorem c3_unparseable_dates_get_mode_year
    (t : Table) (n : Nat) (pub ttl ab jr sx : Col)
    (hw : WFn t n)
    (hpub : getCol t "publish_time" = .ok pub)
    (httl : getCol t "title" = .ok ttl)
    (hab : getCol t "abstract" = .ok ab)
    (hjr : getCol t "journal" = .ok jr)
    (hsx : getCol t "source_x" = .ok sx) :
    ∃ T ycol, clean_data t = .ok T ∧
      getCol T "publication_year" = .ok ycol ∧
      ((∃ m : Int, modeOf (knownYears (pub.map parseDate)) = some m ∧
          m ∈ knownYears (pub.map parseDate) ∧
          (∀ y : Int, (knownYears (pub.map parseDate)).count y
            ≤ (knownYears (pub.map parseDate)).count m) ∧
          ∀ (i : Nat) (v : Value), pub[i]? = some v → parseDate v = none →
            ycol[i]? = some (Value.int m))
        ∨ (knownYears (pub.map parseDate) = [] ∧
            ∀ (i : Nat) (v : Value), pub[i]? = some v →
              ycol[i]? = some Value.absent)) := by
  refine ⟨cleanShape t pub ttl ab jr sx, finalYearCol (pub.map parseDate),
    clean_data_shape hw hpub httl hab hjr hsx,
    getCol_cleanShape_publication_year, ?_⟩
  cases hm : modeOf (knownYears (pub.map parseDate)) with
  | some m =>
    obtain ⟨hmem, hcount⟩ := modeOf_spec hm
    refine Or.inl ⟨m, rfl, hmem, hcount, fun i v hi hv => ?_⟩
    unfold finalYearCol
    rw [hm]
    have h1 : (pub.map parseDate)[i]? = some none := by
      rw [List.getElem?_map, hi]
      simp [hv]
    have h2 : ((pub.map parseDate).map yearValue)[i]? = some Value.absent := by
      rw [List.getElem?_map, h1]
      rfl
    unfold fillna
    rw [List.getElem?_map, h2]
    rfl
  | none =>
    have hempty : knownYears (pub.map parseDate) = [] := by
      by_contra hne
      obtain ⟨m, hm2⟩ := modeOf_isSome hne
      rw [hm] at hm2
      exact Option.noConfusion hm2
    refine Or.inr ⟨hempty, fun i v hi => ?_⟩
    have hall := knownYears_eq_nil_iff.mp hempty
    have hvnone : parseDate v = none := by
      have : parseDate v ∈ pub.map parseDate := by
        exact List.mem_map_of_mem _ (List.getElem?_mem hi)
      exact hall _ this
    unfold finalYearCol
    rw [hm]
    rw [List.getElem?_map, List.getElem?_map, hi]
    simp [hvnone]
    rfl

/-! ## Lemmas about stripping and splitting -/

theorem wsTokens_eq_nil {cs acc : List Char} :
    wsTokens acc cs = [] ↔ acc.isEmpty = true ∧ ∀ c ∈ cs, isWS c = true := by
  induction cs generalizing acc with
  | nil =>
    unfold wsTokens
    by_cases h : acc.isEmpty <;> simp [h]
  | cons c rest ih =>
    unfold wsTokens
    by_cases h : isWS c
    · rw [if_pos h]
      by_cases ha : acc.isEmpty
      · simp [ha, ih, h]
      · simp [ha, h]
    · rw [if_neg h]
      rw [ih]
      simp [h]

theorem length_pyStrip_eq_zero {s : String} :
    (pyStrip s).length = 0 ↔ ∀ c ∈ s.data, isWS c = true := by
  have hlen : (pyStrip s).length
      = (((s.data.dropWhile isWS).reverse.dropWhile isWS).reverse).length := rfl
  rw [hlen, List.length_eq_zero, List.reverse_eq_nil_iff,
    List.dropWhile_eq_nil_iff]
  constructor
  · intro h c hc
    by_cases hmem : c ∈ s.data.dropWhile isWS
    · exact h c (List.mem_reverse.mpr hmem)
    · have hsplit : s.data = s.data.takeWhile isWS ++ s.data.dropWhile isWS :=
        (List.takeWhile_append_dropWhile isWS s.data).symm
      rw [hsplit] at hc
      rcases List.mem_append.mp hc with h1 | h1
      · exact List.mem_takeWhile_imp h1
      · exact absurd h1 hmem
  · intro h c hc
    exact h c (List.dropWhile_subset isWS (List.mem_reverse.mp hc))

theorem length_pySplit_pos {s : String} :
    0 < (pySplit s).length ↔ ¬ ∀ c ∈ s.data, isWS c = true := by
  unfold pySplit
  rw [List.length_map, Nat.pos_iff_ne_zero, Ne, List.length_eq_zero]
  rw [wsTokens_eq_nil]
  simp

theorem strip_pos_iff_split_pos {s : String} :
    0 < (pyStrip s).length ↔ 0 < (pySplit s).length := by
  rw [length_pySplit_pos, Nat.pos_iff_ne_zero, Ne, length_pyStrip_eq_zero]

/-! ## The columns of the cleaned table -/

theorem getCol_cleanShape_source_type {t : Table} {pub ttl ab jr sx : Col} :
    getCol (cleanShape t pub ttl ab jr sx) "source_type"
      = .ok (fillna sx (.str "Unknown")) := by
  unfold cleanShape
  rw [getCol_setCol_self]

theorem getCol_cleanShape_has_abstract {t : Table} {pub ttl ab jr sx : Col} :
    getCol (cleanShape t pub ttl ab jr sx) "has_abstract"
      = .ok (habCol (fillna ab (.str ""))) := by
  unfold cleanShape
  rw [getCol_setCol_ne (by decide), getCol_setCol_self]

theorem getCol_cleanShape_title_word_count
    {t : Table} {pub ttl ab jr sx : Col} :
    getCol (cleanShape t pub ttl ab jr sx) "title_word_count"
      = .ok (wcCol (fillna ttl (.str "Unknown Title"))) := by
  unfold cleanShape
  rw [getCol_setCol_ne (by decide), getCol_setCol_ne (by decide),
    getCol_setCol_self]

theorem getCol_cleanShape_abstract_word_count
    {t : Table} {pub ttl ab jr sx : Col} :
    getCol (cleanShape t pub ttl ab jr sx) "abstract_word_count"
      = .ok (wcCol (fillna ab (.str ""))) := by
  unfold cleanShape
  rw [getCol_setCol_ne (by decide), getCol_setCol_ne (by decide),
    getCol_setCol_ne (by decide), getCol_setCol_self]

theorem getCol_cleanShape_journal {t : Table} {pub ttl ab jr sx : Col} :
    getCol (cleanShape t pub ttl ab jr sx) "journal"
      = .ok (fillna jr (.str "Unknown Journal")) := by
  unfold cleanShape
  rw [getCol_setCol_ne (by decide), getCol_setCol_ne (by decide),
    getCol_setCol_ne (by decide), getCol_setCol_ne (by decide),
    getCol_setCol_self]

theorem getCol_cleanShape_abstract {t : Table} {pub ttl ab jr sx : Col} :
    getCol (cleanShape t pub ttl ab jr sx) "abstract"
      = .ok (fillna ab (.str "")) := by
  unfold cleanShape
  rw [getCol_setCol_ne (by decide), getCol_setCol_ne (by decide),
    getCol_setCol_ne (by decide), getCol_setCol_ne (by decide),
    getCol_setCol_ne (by decide), getCol_setCol_self]

theorem getCol_cleanShape_title {t : Table} {pub ttl ab jr sx : Col} :
    getCol (cleanShape t pub ttl ab jr sx) "title"
      = .ok (fillna ttl (.str "Unknown Title")) := by
  unfold cleanShape
  rw [getCol_setCol_ne (by decide), getCol_setCol_ne (by decide),
    getCol_setCol_ne (by decide), getCol_setCol_ne (by decide),
    getCol_setCol_ne (by decide), getCol_setCol_ne (by decide),
    getCol_setCol_self]

theorem getCol_cleanShape_publication_month
    {t : Table} {pub ttl ab jr sx : Col} :
    getCol (cleanShape t pub ttl ab jr sx) "publication_month"
      = .ok ((pub.map parseDate).map monthValue) := by
  unfold cleanShape
  rw [getCol_setCol_ne (by decide), getCol_setCol_ne (by decide),
    getCol_setCol_ne (by decide), getCol_setCol_ne (by decide),
    getCol_setCol_ne (by decide), getCol_setCol_ne (by decide),
    getCol_setCol_ne (by decide), getCol_setCol_ne (by decide),
    getCol_setCol_self]

theorem getCol_cleanShape_publish_time {t : Table} {pub ttl ab jr sx : Col} :
    getCol (cleanShape t pub ttl ab jr sx) "publish_time"
      = .ok ((pub.map parseDate).map dateValue) := by
  unfold cleanShape
  rw [getCol_setCol_ne (by decide), getCol_setCol_ne (by decide),
    getCol_setCol_ne (by decide), getCol_setCol_ne (by decide),
    getCol_setCol_ne (by decide), getCol_setCol_ne (by decide),
    getCol_setCol_ne (by decide), getCol_setCol_ne (by decide),
    getCol_setCol_ne (by decide), getCol_setCol_ne (by decide),
    getCol_setCol_self]

theorem getCol_cleanShape_other {t : Table} {pub ttl ab jr sx : Col}
    {c : String}
    (h1 : c ≠ "publish_time") (h2 : c ≠ "publication_year")
    (h3 : c ≠ "publication_month") (h4 : c ≠ "title") (h5 : c ≠ "abstract")
    (h6 : c ≠ "journal") (h7 : c ≠ "abstract_word_count")
    (h8 : c ≠ "title_word_count") (h9 : c ≠ "has_abstract")
    (h10 : c ≠ "source_type") :
    getCol (cleanShape t pub ttl ab jr sx) c = getCol t c := by
  unfold cleanShape
  rw [getCol_setCol_ne h10, getCol_setCol_ne h9, getCol_setCol_ne h8,
    getCol_setCol_ne h7, getCol_setCol_ne h6, getCol_setCol_ne h5,
    getCol_setCol_ne h4, getCol_setCol_ne h2, getCol_setCol_ne h3,
    getCol_setCol_ne h2, getCol_setCol_ne h1]

/-! ## Claims C8 and C10 -/

/-- Claim C8: in the cleaned table, `title` and `abstract` are never absent
(an absent title becomes `"Unknown Title"`, an absent abstract becomes empty
text), `has_abstract` is exactly whether the trimmed cleaned abstract is
non-empty, and `abstract_word_count` is exactly the number of
whitespace-separated tokens of the cleaned abstract. -/
theorem c8_cleaned_row_invariants
    (t : Table) (n : Nat) (pub ttl ab jr sx : Col) (T : Table)
    (hw : WFn t n)
    (hpub : getCol t "publish_time" = .ok pub)
    (httl : getCol t "title" = .ok ttl)
    (hab : getCol t "abstract" = .ok ab)
    (hjr : getCol t "journal" = .ok jr)
    (hsx : getCol t "source_x" = .ok sx)
    (hT : clean_data t = .ok T) :
    ∃ ttlC abC hbC wcC,
      getCol T "title" = .ok ttlC ∧
      getCol T "abstract" = .ok abC ∧
      getCol T "has_abstract" = .ok hbC ∧
      getCol T "abstract_word_count" = .ok wcC ∧
      (∀ v ∈ ttlC, v ≠ Value.absent) ∧
      (∀ v ∈ abC, v ≠ Value.absent) ∧
      (∀ i : Nat, ttl[i]? = some Value.absent →
        ttlC[i]? = some (Value.str "Unknown Title")) ∧
      (∀ i : Nat, ab[i]? = some Value.absent →
        abC[i]? = some (Value.str "")) ∧
      (∀ (i : Nat) (v : Value), abC[i]? = some v →
        hbC[i]? = some (Value.bool (decide (0 < (pyStrip (pyStr v)).length)))
          ∧ wcC[i]? = some (Value.int ((pySplit (pyStr v)).length : Int))) := by
  have hshape := clean_data_shape hw hpub httl hab hjr hsx
  rw [hT] at hshape
  have hTe : T = cleanShape t pub ttl ab jr sx := by injection hshape
  subst hTe
  refine ⟨fillna ttl (.str "Unknown Title"), fillna ab (.str ""),
    habCol (fillna ab (.str "")), wcCol (fillna ab (.str "")),
    getCol_cleanShape_title, getCol_cleanShape_abstract,
    getCol_cleanShape_has_abstract, getCol_cleanShape_abstract_word_count,
    fillna_ne_absent (by decide), fillna_ne_absent (by decide),
    ?_, ?_, ?_⟩
  · intro i hi
    unfold fillna
    rw [List.getElem?_map, hi]
    rfl
  · intro i hi
    unfold fillna
    rw [List.getElem?_map, hi]
    rfl
  · intro i v hv
    unfold habCol wcCol
    rw [List.getElem?_map, hv, List.getElem?_map, hv]
    exact ⟨rfl, rfl⟩

/-- The table produced by a successful run of the dashboard's `clean_data`,
as an explicit `setCol` chain. -/
def appCleanShape (t : Table) (pub ttl ab jr : Col) : Table :=
  setCol (setCol (setCol (setCol (setCol (setCol (setCol t
    "publish_time" ((pub.map parseDate).map dateValue))
    "publication_year" ((pub.map parseDate).map yearValue))
    "title" (fillna ttl (.str "Unknown Title")))
    "abstract" (fillna ab (.str "")))
    "journal" (fillna jr (.str "Unknown Journal")))
    "abstract_word_count" (wcCol (fillna ab (.str ""))))
    "has_abstract" (habCol (fillna ab (.str "")))

theorem app_clean_data_ok {t : Table} {pub ttl ab jr : Col}
    (hpub : getCol t "publish_time" = .ok pub)
    (httl : getCol t "title" = .ok ttl)
    (hab : getCol t "abstract" = .ok ab)
    (hjr : getCol t "journal" = .ok jr) :
    app_clean_data t = .ok (appCleanShape t pub ttl ab jr) := by
  simp only [app_clean_data, hpub]
  rw [getCol_setCol_ne (by decide), getCol_setCol_ne (by decide), httl]
  simp only []
  rw [getCol_setCol_ne (by decide), getCol_setCol_ne (by decide),
    getCol_setCol_ne (by decide), hab]
  simp only []
  rw [getCol_setCol_ne (by decide), getCol_setCol_ne (by decide),
    getCol_setCol_ne (by decide), getCol_setCol_ne (by decide), hjr]
  simp only [appCleanShape, wcCol, habCol]

theorem getCol_appCleanShape_has_abstract {t : Table} {pub ttl ab jr : Col} :
    getCol (appCleanShape t pub ttl ab jr) "has_abstract"
      = .ok (habCol (fillna ab (.str ""))) := by
  unfold appCleanShape
  rw [getCol_setCol_self]

theorem getCol_appCleanShape_abstract_word_count
    {t : Table} {pub ttl ab jr : Col} :
    getCol (appCleanShape t pub ttl ab jr) "abstract_word_count"
      = .ok (wcCol (fillna ab (.str ""))) := by
  unfold appCleanShape
  rw [getCol_setCol_ne (by decide), getCol_setCol_self]

theorem hab_iff_wc_pos_pointwise {vs : Col} (i : Nat) :
    (habCol vs)[i]? = some (Value.bool true)
      ↔ ∃ k : Int, (wcCol vs)[i]? = some (Value.int k) ∧ 0 < k := by
  unfold habCol wcCol
  rw [List.getElem?_map, List.getElem?_map]
  cases hv : vs[i]? with
  | none => simp
  | some v =>
    simp only [Option.map_some']
    constructor
    · intro h
      have hb : Value.bool (decide (0 < (pyStrip (pyStr v)).length))
          = Value.bool true := by injection h
      have hb2 : decide (0 < (pyStrip (pyStr v)).length) = true := by
        injection hb
      have hpos : 0 < (pyStrip (pyStr v)).length := of_decide_eq_true hb2
      have hsplit : 0 < (pySplit (pyStr v)).length :=
        strip_pos_iff_split_pos.mp hpos
      refine ⟨((pySplit (pyStr v)).length : Int), rfl, ?_⟩
      exact_mod_cast hsplit
    · rintro ⟨k, hk, hkpos⟩
      have hik : Value.int ((pySplit (pyStr v)).length : Int)
          = Value.int k := by injection hk
      have hk2 : ((pySplit (pyStr v)).length : Int) = k := by injection hik
      have hsplit : 0 < (pySplit (pyStr v)).length := by
        rw [← hk2] at hkpos
        exact_mod_cast hkpos
      have hpos : 0 < (pyStrip (pyStr v)).length :=
        strip_pos_iff_split_pos.mpr hsplit
      simp [hpos]

/-- Claim C10: in both cleaning pipelines, the cleaned table's
`has_abstract` flag is `true` on a row exactly when the row's
`abstract_word_count` is positive. -/
theorem c10_has_abstract_iff_word_count_pos :
    (∀ (t : Table) (n : Nat) (pub ttl ab jr sx : Col) (T : Table),
      WFn t n →
      getCol t "publish_time" = .ok pub →
      getCol t "title" = .ok ttl →
      getCol t "abstract" = .ok ab →
      getCol t "journal" = .ok jr →
      getCol t "source_x" = .ok sx →
      clean_data t = .ok T →
      ∃ hbC wcC, getCol T "has_abstract" = .ok hbC ∧
        getCol T "abstract_word_count" = .ok wcC ∧
        ∀ i : Nat, hbC[i]? = some (Value.bool true)
          ↔ ∃ k : Int, wcC[i]? = some (Value.int k) ∧ 0 < k) ∧
    (∀ (t : Table) (pub ttl ab jr : Col) (T : Table),
      getCol t "publish_time" = .ok pub →
      getCol t "title" = .ok ttl →
      getCol t "abstract" = .ok ab →
      getCol t "journal" = .ok jr →
      app_clean_data t = .ok T →
      ∃ hbC wcC, getCol T "has_abstract" = .ok hbC ∧
        getCol T "abstract_word_count" = .ok wcC ∧
        ∀ i : Nat, hbC[i]? = some (Value.bool true)
          ↔ ∃ k : Int, wcC[i]? = some (Value.int k) ∧ 0 < k) := by
  constructor
  · intro t n pub ttl ab jr sx T hw hpub httl hab hjr hsx hT
    have hshape := clean_data_shape hw hpub httl hab hjr hsx
    rw [hT] at hshape
    have hTe : T = cleanShape t pub ttl ab jr sx := by injection hshape
    subst hTe
    exact ⟨habCol (fillna ab (.str "")), wcCol (fillna ab (.str "")),
      getCol_cleanShape_has_abstract, getCol_cleanShape_abstract_word_count,
      hab_iff_wc_pos_pointwise⟩
  · intro t pub ttl ab jr T hpub httl hab hjr hT
    have hshape := app_clean_data_ok hpub httl hab hjr
    rw [hT] at hshape
    have hTe : T = appCleanShape t pub ttl ab jr := by injection hshape
    subst hTe
    exact ⟨habCol (fillna ab (.str "")), wcCol (fillna ab (.str "")),
      getCol_appCleanShape_has_abstract,
      getCol_appCleanShape_abstract_word_count,
      hab_iff_wc_pos_pointwise⟩

/-! ## Claim C2: schema errors -/

/-- The required columns of the input file. -/
def requiredColumns : List String :=
  ["title", "abstract", "journal", "publish_time", "source_x"]

theorem hasCol_maskFilter {t : Table} {mask : List Bool} {c : String} :
    hasCol (maskFilter t mask) c = hasCol t c := by
  rw [← Bool.coe_iff_coe, hasCol_iff_mem, hasCol_iff_mem]
  have : colNames (maskFilter t mask) = colNames t := by
    unfold maskFilter colNames
    rw [List.map_map]
    rfl
  rw [this]

theorem handle_dates_error {t : Table}
    (h : hasCol t "publish_time" = false) :
    handle_dates t = .error (.missingColumn "publish_time") := by
  simp only [handle_dates, getCol_of_hasCol_false h]

theorem handle_dates_ok_of_hasCol {t : Table}
    (h : hasCol t "publish_time" = true) :
    ∃ t1, handle_dates t = .ok t1 ∧
      ∀ c, c ≠ "publish_time" → c ≠ "publication_year" →
        c ≠ "publication_month" → hasCol t1 c = hasCol t c := by
  obtain ⟨pub, hpub⟩ := getCol_of_hasCol_true h
  simp only [handle_dates, hpub]
  cases modeOf (knownYears (pub.map parseDate)) with
  | some m =>
    refine ⟨_, rfl, fun c h1 h2 h3 => ?_⟩
    rw [hasCol_setCol_ne h2, hasCol_setCol_ne h3, hasCol_setCol_ne h2,
      hasCol_setCol_ne h1]
  | none =>
    refine ⟨_, rfl, fun c h1 h2 h3 => ?_⟩
    rw [hasCol_setCol_ne h3, hasCol_setCol_ne h2, hasCol_setCol_ne h1]

theorem hmv_error_title {t : Table} (h : hasCol t "title" = false) :
    handle_missing_values t = .error (.missingColumn "title") := by
  simp only [handle_missing_values, getCol_of_hasCol_false h]

theorem hmv_error_abstract {t : Table} (h1 : hasCol t "title" = true)
    (h : hasCol t "abstract" = false) :
    handle_missing_values t = .error (.missingColumn "abstract") := by
  obtain ⟨ttl, httl⟩ := getCol_of_hasCol_true h1
  simp only [handle_missing_values, httl]
  have : hasCol (setCol t "title" (fillna ttl (.str "Unknown Title")))
      "abstract" = false := by
    rw [hasCol_setCol_ne (by decide)]
    exact h
  rw [getCol_of_hasCol_false this]

theorem hmv_error_journal {t : Table} (h1 : hasCol t "title" = true)
    (h2 : hasCol t "abstract" = true) (h : hasCol t "journal" = false) :
    handle_missing_values t = .error (.missingColumn "journal") := by
  obtain ⟨ttl, httl⟩ := getCol_of_hasCol_true h1
  obtain ⟨ab, hab⟩ := getCol_of_hasCol_true (t := t) (c := "abstract") h2
  simp only [handle_missing_values, httl]
  rw [getCol_setCol_ne (by decide), hab]
  simp only []
  have : hasCol (setCol (setCol t "title" (fillna ttl (.str "Unknown Title")))
      "abstract" (fillna ab (.str ""))) "journal" = false := by
    rw [hasCol_setCol_ne (by decide), hasCol_setCol_ne (by decide)]
    exact h
  rw [getCol_of_hasCol_false this]

theorem hmv_ok_of_hasCol {t : Table} (h1 : hasCol t "title" = true)
    (h2 : hasCol t "abstract" = true) (h3 : hasCol t "journal" = true) :
    ∃ t2, handle_missing_values t = .ok t2 ∧
      hasCol t2 "title" = true ∧ hasCol t2 "abstract" = true ∧
      (∀ c, c ≠ "title" → c ≠ "abstract" → c ≠ "journal" →
        hasCol t2 c = hasCol t c) := by
  obtain ⟨ttl, httl⟩ := getCol_of_hasCol_true h1
  obtain ⟨ab, hab⟩ := getCol_of_hasCol_true (t := t) (c := "abstract") h2
  obtain ⟨jr, hjr⟩ := getCol_of_hasCol_true (t := t) (c := "journal") h3
  simp only [handle_missing_values, httl]
  rw [getCol_setCol_ne (by decide), hab]
  simp only []
  rw [getCol_setCol_ne (by decide), getCol_setCol_ne (by decide), hjr]
  simp only []
  refine ⟨_, rfl, ?_, ?_, fun c hc1 hc2 hc3 => ?_⟩
  · rw [hasCol_maskFilter, hasCol_setCol_ne (by decide),
      hasCol_setCol_ne (by decide), hasCol_setCol_self]
  · rw [hasCol_maskFilter, hasCol_setCol_ne (by decide), hasCol_setCol_self]
  · rw [hasCol_maskFilter, hasCol_setCol_ne hc3, hasCol_setCol_ne hc2,
      hasCol_setCol_ne hc1]

theorem cnf_error_source_x {t : Table} (h1 : hasCol t "abstract" = true)
    (h2 : hasCol t "title" = true) (h : hasCol t "source_x" = false) :
    create_new_features t = .error (.missingColumn "source_x") := by
  obtain ⟨ab, hab⟩ := getCol_of_hasCol_true (t := t) (c := "abstract") h1
  obtain ⟨ttl, httl⟩ := getCol_of_hasCol_true (t := t) (c := "title") h2
  simp only [create_new_features, hab]
  rw [getCol_setCol_ne (by decide), httl]
  simp only []
  have : hasCol (setCol (setCol (setCol t
      "abstract_word_count" (ab.map (fun v =>
        .int ((pySplit (pyStr v)).length : Int))))
      "title_word_count" (ttl.map (fun v =>
        .int ((pySplit (pyStr v)).length : Int))))
      "has_abstract" (ab.map (fun v =>
        .bool (decide (0 < (pyStrip (pyStr v)).length))))) "source_x"
      = false := by
    rw [hasCol_setCol_ne (by decide), hasCol_setCol_ne (by decide),
      hasCol_setCol_ne (by decide)]
    exact h
  rw [getCol_of_hasCol_false this]

theorem cnf_ok_of_hasCol {t : Table} (h1 : hasCol t "abstract" = true)
    (h2 : hasCol t "title" = true) (h3 : hasCol t "source_x" = true) :
    ∃ t3, create_new_features t = .ok t3 := by
  obtain ⟨ab, hab⟩ := getCol_of_hasCol_true (t := t) (c := "abstract") h1
  obtain ⟨ttl, httl⟩ := getCol_of_hasCol_true (t := t) (c := "title") h2
  obtain ⟨sx, hsx⟩ := getCol_of_hasCol_true (t := t) (c := "source_x") h3
  simp only [create_new_features, hab]
  rw [getCol_setCol_ne (by decide), httl]
  simp only []
  rw [getCol_setCol_ne (by decide), getCol_setCol_ne (by decide),
    getCol_setCol_ne (by decide), hsx]
  exact ⟨_, rfl⟩

theorem clean_schema_spec (t : Table) :
    ((∃ c ∈ requiredColumns, hasCol t c = false) →
      ∃ c ∈ requiredColumns, hasCol t c = false ∧
        clean_data t = .error (.missingColumn c)) ∧
    ((∀ c ∈ requiredColumns, hasCol t c = true) →
      ∃ T, clean_data t = .ok T) := by
  constructor
  · intro hmiss
    by_cases hpt : hasCol t "publish_time" = true
    · obtain ⟨t1, ht1, hpres⟩ := handle_dates_ok_of_hasCol hpt
      by_cases httl : hasCol t "title" = true
      · by_cases habs : hasCol t "abstract" = true
        · by_cases hjr : hasCol t "journal" = true
          · by_cases hsx : hasCol t "source_x" = true
            · exfalso
              obtain ⟨c, hc, hcf⟩ := hmiss
              simp only [requiredColumns, List.mem_cons,
                List.not_mem_nil, or_false] at hc
              rcases hc with rfl | rfl | rfl | rfl | rfl
              · rw [httl] at hcf; exact Bool.noConfusion hcf
              · rw [habs] at hcf; exact Bool.noConfusion hcf
              · rw [hjr] at hcf; exact Bool.noConfusion hcf
              · rw [hpt] at hcf; exact Bool.noConfusion hcf
              · rw [hsx] at hcf; exact Bool.noConfusion hcf
            · simp only [Bool.not_eq_true] at hsx
              obtain ⟨t2, ht2, h2ab, h2ttl, h2pres⟩ := hmv_ok_of_hasCol
                (by rw [hpres _ (by decide) (by decide) (by decide)]; exact httl)
                (by rw [hpres _ (by decide) (by decide) (by decide)]; exact habs)
                (by rw [hpres _ (by decide) (by decide) (by decide)]; exact hjr)
              refine ⟨"source_x", by decide, hsx, ?_⟩
              simp only [clean_data, ht1, ht2]
              exact cnf_error_source_x h2ttl h2ab
                (by rw [h2pres _ (by decide) (by decide) (by decide),
                  hpres _ (by decide) (by decide) (by decide)]; exact hsx)
          · simp only [Bool.not_eq_true] at hjr
            refine ⟨"journal", by decide, hjr, ?_⟩
            simp only [clean_data, ht1]
            simp only [hmv_error_journal
              (by rw [hpres _ (by decide) (by decide) (by decide)]; exact httl)
              (by rw [hpres _ (by decide) (by decide) (by decide)]; exact habs)
              (by rw [hpres _ (by decide) (by decide) (by decide)]; exact hjr)]
        · simp only [Bool.not_eq_true] at habs
          refine ⟨"abstract", by decide, habs, ?_⟩
          simp only [clean_data, ht1]
          simp only [hmv_error_abstract
            (by rw [hpres _ (by decide) (by decide) (by decide)]; exact httl)
            (by rw [hpres _ (by decide) (by decide) (by decide)]; exact habs)]
      · simp only [Bool.not_eq_true] at httl
        refine ⟨"title", by decide, httl, ?_⟩
        simp only [clean_data, ht1]
        simp only [hmv_error_title
          (by rw [hpres _ (by decide) (by decide) (by decide)]; exact httl)]
    · simp only [Bool.not_eq_true] at hpt
      refine ⟨"publish_time", by decide, hpt, ?_⟩
      simp only [clean_data, handle_dates_error hpt]
  · intro hall
    have hpt := hall "publish_time" (by decide)
    have httl := hall "title" (by decide)
    have habs := hall "abstract" (by decide)
    have hjr := hall "journal" (by decide)
    have hsx := hall "source_x" (by decide)
    obtain ⟨t1, ht1, hpres⟩ := handle_dates_ok_of_hasCol hpt
    obtain ⟨t2, ht2, h2ab, h2ttl, h2pres⟩ := hmv_ok_of_hasCol
      (by rw [hpres _ (by decide) (by decide) (by decide)]; exact httl)
      (by rw [hpres _ (by decide) (by decide) (by decide)]; exact habs)
      (by rw [hpres _ (by decide) (by decide) (by decide)]; exact hjr)
    obtain ⟨t3, ht3⟩ := cnf_ok_of_hasCol h2ttl h2ab
      (by rw [h2pres _ (by decide) (by decide) (by decide),
        hpres _ (by decide) (by decide) (by decide)]; exact hsx)
    exact ⟨t3, by simp only [clean_data, ht1, ht2, ht3]⟩

/-- Claim C2: `clean_data` fails with a missing-column schema error exactly
when one of the five required columns is absent, and succeeds (producing a
cleaned table, never raising for malformed row values) whenever all five
are present. -/
theorem c2_schema_error_on_missing_column (t : Table) :
    ((∃ c ∈ requiredColumns, hasCol t c = false) →
      ∃ c ∈ requiredColumns, hasCol t c = false ∧
        clean_data t = .error (.missingColumn c)) ∧
    ((∀ c ∈ requiredColumns, hasCol t c = true) →
      ∃ T, clean_data t = .ok T) :=
  clean_schema_spec t

theorem clean_data_ok_required {t : Table} {T : Table}
    (h : clean_data t = .ok T) : ∀ c ∈ requiredColumns, hasCol t c = true := by
  by_contra hcon
  push_neg at hcon
  obtain ⟨c, hc, hcf⟩ := hcon
  simp only [Bool.not_eq_true] at hcf
  obtain ⟨c', _, _, herr⟩ := (clean_schema_spec t).1 ⟨c, hc, hcf⟩
  rw [h] at herr
  exact Except.noConfusion herr

/-! ## Claim C7: idempotence -/

theorem parseDate_dateValue (o : Option (Nat × Nat × Nat)) :
    parseDate (dateValue o) = o := by
  cases o with
  | none => rfl
  | some x =>
    obtain ⟨y, m, d⟩ := x
    rfl

theorem map_parseDate_map_dateValue {l : List (Option (Nat × Nat × Nat))} :
    (l.map dateValue).map parseDate = l := by
  rw [List.map_map]
  calc l.map (parseDate ∘ dateValue)
      = l.map id := List.map_congr_left (fun o _ => parseDate_dateValue o)
    _ = l := List.map_id l

/-- Claim C7: re-running `clean_data` on the output of a successful
`clean_data` run returns the table unchanged, row for row and column for
column. -/
theorem c7_clean_idempotent (S T : Table) (n : Nat) (hw : WFn S n)
    (hT : clean_data S = .ok T) : clean_data T = .ok T := by
  have hreq := clean_data_ok_required hT
  obtain ⟨pub, hpub⟩ := getCol_of_hasCol_true (hreq "publish_time" (by decide))
  obtain ⟨ttl, httl⟩ := getCol_of_hasCol_true (hreq "title" (by decide))
  obtain ⟨ab, hab⟩ := getCol_of_hasCol_true (hreq "abstract" (by decide))
  obtain ⟨jr, hjr⟩ := getCol_of_hasCol_true (hreq "journal" (by decide))
  obtain ⟨sx, hsx⟩ := getCol_of_hasCol_true (hreq "source_x" (by decide))
  have hshape := clean_data_shape hw hpub httl hab hjr hsx
  rw [hT] at hshape
  have hTe : T = cleanShape S pub ttl ab jr sx := by injection hshape
  have hlp : pub.length = n := length_getCol_WFn hw hpub
  have hwT : WFn T n := by
    rw [hTe]
    exact WFn_cleanShape hw hlp (length_getCol_WFn hw httl)
      (length_getCol_WFn hw hab) (length_getCol_WFn hw hjr)
      (length_getCol_WFn hw hsx)
  have hptT : getCol T "publish_time"
      = .ok ((pub.map parseDate).map dateValue) := by
    rw [hTe]; exact getCol_cleanShape_publish_time
  have httlT : getCol T "title"
      = .ok (fillna ttl (.str "Unknown Title")) := by
    rw [hTe]; exact getCol_cleanShape_title
  have habT : getCol T "abstract" = .ok (fillna ab (.str "")) := by
    rw [hTe]; exact getCol_cleanShape_abstract
  have hjrT : getCol T "journal"
      = .ok (fillna jr (.str "Unknown Journal")) := by
    rw [hTe]; exact getCol_cleanShape_journal
  have hsxT : getCol T "source_x" = .ok sx := by
    rw [hTe]
    rw [getCol_cleanShape_other (by decide) (by decide) (by decide)
      (by decide) (by decide) (by decide) (by decide) (by decide)
      (by decide) (by decide)]
    exact hsx
  have hyrT : getCol T "publication_year"
      = .ok (finalYearCol (pub.map parseDate)) := by
    rw [hTe]; exact getCol_cleanShape_publication_year
  have hmoT : getCol T "publication_month"
      = .ok ((pub.map parseDate).map monthValue) := by
    rw [hTe]; exact getCol_cleanShape_publication_month
  have hawcT : getCol T "abstract_word_count"
      = .ok (wcCol (fillna ab (.str ""))) := by
    rw [hTe]; exact getCol_cleanShape_abstract_word_count
  have htwcT : getCol T "title_word_count"
      = .ok (wcCol (fillna ttl (.str "Unknown Title"))) := by
    rw [hTe]; exact getCol_cleanShape_title_word_count
  have hhabT : getCol T "has_abstract"
      = .ok (habCol (fillna ab (.str ""))) := by
    rw [hTe]; exact getCol_cleanShape_has_abstract
  have hstT : getCol T "source_type" = .ok (fillna sx (.str "Unknown")) := by
    rw [hTe]; exact getCol_cleanShape_source_type
  have hshapeT := clean_data_shape hwT hptT httlT habT hjrT hsxT
  have hndT : (colNames T).Nodup := hwT.1
  have hMain : cleanShape T ((pub.map parseDate).map dateValue)
      (fillna ttl (.str "Unknown Title")) (fillna ab (.str ""))
      (fillna jr (.str "Unknown Journal")) sx = T := by
    unfold cleanShape
    rw [map_parseDate_map_dateValue]
    rw [setCol_eq_self hndT hptT]
    have hnd2 : (colNames (setCol T "publication_year"
        ((pub.map parseDate).map yearValue))).Nodup :=
      (WFn_setCol hwT (by simp [hlp])).1
    have hmo2 : getCol (setCol T "publication_year"
        ((pub.map parseDate).map yearValue)) "publication_month"
        = .ok ((pub.map parseDate).map monthValue) := by
      rw [getCol_setCol_ne (by decide)]
      exact hmoT
    rw [setCol_eq_self hnd2 hmo2]
    rw [setCol_setCol_same]
    rw [setCol_eq_self hndT hyrT]
    rw [fillna_fillna (by decide), fillna_fillna (by decide),
      fillna_fillna (by decide)]
    rw [setCol_eq_self hndT httlT]
    rw [setCol_eq_self hndT habT]
    rw [setCol_eq_self hndT hjrT]
    rw [setCol_eq_self hndT hawcT]
    rw [setCol_eq_self hndT htwcT]
    rw [setCol_eq_self hndT hhabT]
    rw [setCol_eq_self hndT hstT]
  rw [hMain] at hshapeT
  exact hshapeT

/-! ## Claim C1: the row-drop filter never fires -/

/-- A one-row table whose original `title` and `abstract` are both absent:
the specification's row-drop rule requires this row to be removed. -/
def c1FailInput : Table :=
  [("title", [Value.absent]), ("abstract", [Value.absent]),
   ("journal", [Value.absent]), ("publish_time", [Value.absent]),
   ("source_x", [Value.absent])]

/-- Claim C1 (code divergence): `handle_missing_values` fills `title` and
`abstract` before evaluating the drop filter, so the filter matches nothing
and the row whose original `title` and `abstract` were both absent is kept
(with defaults substituted) instead of being dropped: the cleaned table
still has one row. -/
theorem c1_code_keeps_blank_row :
    clean_data c1FailInput = .ok
      [("title", [Value.str "Unknown Title"]),
       ("abstract", [Value.str ""]),
       ("journal", [Value.str "Unknown Journal"]),
       ("publish_time", [Value.absent]),
       ("source_x", [Value.absent]),
       ("publication_year", [Value.absent]),
       ("publication_month", [Value.absent]),
       ("abstract_word_count", [Value.int 0]),
       ("title_word_count", [Value.int 2]),
       ("has_abstract", [Value.bool false]),
       ("source_type", [Value.str "Unknown"])] := by
  rfl

/-! ## Claim C9: pass-through of additional columns -/

/-- The derived output columns that `clean_data` overwrites. -/
def derivedColumns : List String :=
  ["publication_year", "publication_month", "abstract_word_count",
   "title_word_count", "has_abstract", "source_type"]

/-- An input with an additional column named `has_abstract`: its values are
not passed through. -/
def c9ExInput : Table :=
  [("title", [Value.str "x"]), ("abstract", [Value.str "a"]),
   ("journal", [Value.str "J"]), ("publish_time", [Value.absent]),
   ("source_x", [Value.str "s"]), ("has_abstract", [Value.str "keep"])]

/-- The cleaned table `clean_data` produces from `c9ExInput`. -/
def c9ExOutput : Table :=
  [("title", [Value.str "x"]), ("abstract", [Value.str "a"]),
   ("journal", [Value.str "J"]), ("publish_time", [Value.absent]),
   ("source_x", [Value.str "s"]), ("has_abstract", [Value.bool true]),
   ("publication_year", [Value.absent]),
   ("publication_month", [Value.absent]),
   ("abstract_word_count", [Value.int 1]),
   ("title_word_count", [Value.int 1]),
   ("source_type", [Value.str "s"])]

/-- Claim C9 is false as stated: the additional column `has_abstract`
(beyond the five required ones) does not appear unchanged in the cleaned
table — its value `"keep"` is overwritten by the derived flag `true`. -/
theorem c9_counterexample :
    getCol c9ExInput "has_abstract" = .ok [Value.str "keep"] ∧
    clean_data c9ExInput = .ok c9ExOutput ∧
    getCol c9ExOutput "has_abstract" = .ok [Value.bool true] ∧
    Value.bool true ≠ Value.str "keep" := by
  refine ⟨rfl, rfl, rfl, ?_⟩
  decide

/-- Claim C9 (amended): `clean_data` never mutates its input (the embedding
is pure), and every additional column whose name is not among the five
required columns and not among the six derived output columns appears in
the cleaned table with its values unchanged. -/
theorem c9_amended_extra_columns_pass_through
    (t : Table) (n : Nat) (T : Table) (c : String)
    (hw : WFn t n) (hT : clean_data t = .ok T)
    (hreq : c ∉ requiredColumns) (hder : c ∉ derivedColumns) :
    getCol T c = getCol t c := by
  have hreq5 := clean_data_ok_required hT
  obtain ⟨pub, hpub⟩ :=
    getCol_of_hasCol_true (hreq5 "publish_time" (by decide))
  obtain ⟨ttl, httl⟩ := getCol_of_hasCol_true (hreq5 "title" (by decide))
  obtain ⟨ab, hab⟩ := getCol_of_hasCol_true (hreq5 "abstract" (by decide))
  obtain ⟨jr, hjr⟩ := getCol_of_hasCol_true (hreq5 "journal" (by decide))
  obtain ⟨sx, hsx⟩ := getCol_of_hasCol_true (hreq5 "source_x" (by decide))
  have hshape := clean_data_shape hw hpub httl hab hjr hsx
  rw [hT] at hshape
  have hTe : T = cleanShape t pub ttl ab jr sx := by injection hshape
  rw [hTe]
  exact getCol_cleanShape_other
    (fun he => hreq (by rw [he]; decide))
    (fun he => hder (by rw [he]; decide))
    (fun he => hder (by rw [he]; decide))
    (fun he => hreq (by rw [he]; decide))
    (fun he => hreq (by rw [he]; decide))
    (fun he => hreq (by rw [he]; decide))
    (fun he => hder (by rw [he]; decide))
    (fun he => hder (by rw [he]; decide))
    (fun he => hder (by rw [he]; decide))
    (fun he => hder (by rw [he]; decide))

/-! ## The tally as counts over first occurrences -/

/-- The distinct values of a list, in order of first occurrence. -/
def firstUniq {α : Type} [DecidableEq α] : List α → List α
  | [] => []
  | x :: xs => x :: (firstUniq xs).filter (fun y => decide (y ≠ x))

theorem mem_firstUniq {α : Type} [DecidableEq α] {l : List α} {a : α} :
    a ∈ firstUniq l ↔ a ∈ l := by
  induction l with
  | nil => simp [firstUniq]
  | cons x xs ih =>
    simp only [firstUniq, List.mem_cons, List.mem_filter,
      decide_eq_true_eq, ih]
    constructor
    · rintro (h | ⟨h, _⟩)
      · exact Or.inl h
      · exact Or.inr (ih.mp (ih.mpr h))
    · rintro (h | h)
      · exact Or.inl h
      · by_cases hax : a = x
        · exact Or.inl hax
        · exact Or.inr ⟨h, hax⟩

theorem nodup_firstUniq {α : Type} [DecidableEq α] {l : List α} :
    (firstUniq l).Nodup := by
  induction l with
  | nil => simp [firstUniq]
  | cons x xs ih =>
    simp only [firstUniq, List.nodup_cons]
    constructor
    · intro hmem
      have := (List.mem_filter.mp hmem).2
      simp at this
    · exact List.Nodup.filter _ ih

theorem firstUniq_append_not_mem {α : Type} [DecidableEq α] {l : List α}
    {x : α} (h : x ∉ l) : firstUniq (l ++ [x]) = firstUniq l ++ [x] := by
  induction l with
  | nil => rfl
  | cons a l ih =>
    rw [List.cons_append]
    have hxl : x ∉ l := fun hm => h (List.mem_cons_of_mem _ hm)
    have hxa : x ≠ a := fun he => h (he ▸ List.mem_cons_self _ _)
    simp only [firstUniq, ih hxl, List.filter_append]
    simp [hxa]

theorem firstUniq_append_mem {α : Type} [DecidableEq α] {l : List α}
    {x : α} (h : x ∈ l) : firstUniq (l ++ [x]) = firstUniq l := by
  induction l with
  | nil => simp at h
  | cons a l ih =>
    rw [List.cons_append]
    by_cases hx : x ∈ l
    · simp only [firstUniq, ih hx]
    · have hxa : x = a := by
        rcases List.mem_cons.mp h with h1 | h1
        · exact h1
        · exact absurd h1 hx
      subst hxa
      simp only [firstUniq, firstUniq_append_not_mem hx, List.filter_append]
      simp

theorem tallyInsert_step {α : Type} [DecidableEq α] (pre : List α) (x : α) :
    tallyInsert ((firstUniq pre).map (fun a => (a, pre.count a))) x
      = (firstUniq (pre ++ [x])).map (fun a => (a, (pre ++ [x]).count a)) := by
  by_cases hx : x ∈ pre
  · have hany : ((firstUniq pre).map (fun a => (a, pre.count a))).any
        (fun p => decide (p.1 = x)) = true := by
      rw [List.any_eq_true]
      exact ⟨(x, pre.count x),
        List.mem_map_of_mem _ (mem_firstUniq.mpr hx), by simp⟩
    rw [tallyInsert, if_pos hany, firstUniq_append_mem hx, List.map_map]
    apply List.map_congr_left
    intro a _
    by_cases hax : a = x
    · subst hax
      simp [List.count_append]
    · simp [hax, List.count_append, List.count_cons,
        Ne.symm hax]
  · have hany : ((firstUniq pre).map (fun a => (a, pre.count a))).any
        (fun p => decide (p.1 = x)) = false := by
      rw [List.any_eq_false]
      intro p hp
      obtain ⟨a, ha, hap⟩ := List.mem_map.mp hp
      simp only [decide_eq_true_eq]
      intro hax
      rw [← hap] at hax
      exact hx (mem_firstUniq.mp (hax ▸ ha))
    rw [tallyInsert, if_neg (by simp [hany]), firstUniq_append_not_mem hx,
      List.map_append]
    congr 1
    · apply List.map_congr_left
      intro a ha
      have hax : a ≠ x := fun he => hx (mem_firstUniq.mp (he ▸ ha))
      simp [List.count_append, List.count_cons, Ne.symm hax]
    · simp [List.count_append, List.count_eq_zero.mpr hx]

theorem foldl_tallyInsert {α : Type} [DecidableEq α] :
    ∀ (xs pre : List α),
      xs.foldl tallyInsert ((firstUniq pre).map (fun a => (a, pre.count a)))
        = (firstUniq (pre ++ xs)).map (fun a => (a, (pre ++ xs).count a)) := by
  intro xs
  induction xs with
  | nil => intro pre; simp
  | cons x xs ih =>
    intro pre
    rw [List.foldl_cons, tallyInsert_step, ih (pre ++ [x])]
    simp [List.append_assoc]

theorem tallyOf_eq {α : Type} [DecidableEq α] (xs : List α) :
    tallyOf xs = (firstUniq xs).map (fun a => (a, xs.count a)) := by
  have h := foldl_tallyInsert xs []
  simpa [tallyOf, firstUniq] using h

theorem map_fst_tallyOf {α : Type} [DecidableEq α] {xs : List α} :
    (tallyOf xs).map Prod.fst = firstUniq xs := by
  rw [tallyOf_eq, List.map_map]
  exact (List.map_congr_left (fun a _ => rfl)).trans (List.map_id _)

theorem mem_tallyOf {α : Type} [DecidableEq α] {xs : List α} {p : α × Nat}
    (h : p ∈ tallyOf xs) : p.1 ∈ xs ∧ p.2 = xs.count p.1 ∧ 0 < p.2 := by
  rw [tallyOf_eq] at h
  obtain ⟨a, ha, hap⟩ := List.mem_map.mp h
  obtain rfl : (a, xs.count a) = p := hap
  have hmem : a ∈ xs := mem_firstUniq.mp ha
  exact ⟨hmem, rfl, List.count_pos_iff.mpr hmem⟩

theorem count_mem_tallyOf {α : Type} [DecidableEq α] {xs : List α} {a : α}
    (h : a ∈ xs) : (a, xs.count a) ∈ tallyOf xs := by
  rw [tallyOf_eq]
  exact List.mem_map_of_mem _ (mem_firstUniq.mpr h)

/-! ## Lemmas about the stable insertion sort -/

theorem insertLe_perm {α : Type} (le : α → α → Bool) (x : α) (l : List α) :
    (insertLe le x l).Perm (x :: l) := by
  induction l with
  | nil => exact List.Perm.refl _
  | cons y rest ih =>
    rw [insertLe]
    by_cases h : le x y = true
    · rw [if_pos h]
    · rw [if_neg h]
      exact (ih.cons y).trans (List.Perm.swap x y rest)

theorem stableSort_perm {α : Type} (le : α → α → Bool) (l : List α) :
    (stableSort le l).Perm l := by
  induction l with
  | nil => exact List.Perm.refl _
  | cons x l ih =>
    show (insertLe le x (stableSort le l)).Perm (x :: l)
    exact (insertLe_perm le x (stableSort le l)).trans (ih.cons x)

theorem mem_insertLe {α : Type} {le : α → α → Bool} {x a : α} {l : List α} :
    a ∈ insertLe le x l ↔ a = x ∨ a ∈ l := by
  rw [(insertLe_perm le x l).mem_iff]
  simp

theorem insertLe_sorted {α : Type} {le : α → α → Bool}
    (htrans : ∀ a b c, le a b = true → le b c = true → le a c = true)
    (htotal : ∀ a b, le a b = true ∨ le b a = true)
    {x : α} {l : List α} (hl : l.Pairwise (fun a b => le a b = true)) :
    (insertLe le x l).Pairwise (fun a b => le a b = true) := by
  induction l with
  | nil => exact List.pairwise_singleton _ _
  | cons y rest ih =>
    rw [insertLe]
    rcases List.pairwise_cons.mp hl with ⟨hy, hrest⟩
    by_cases h : le x y = true
    · rw [if_pos h]
      refine List.Pairwise.cons ?_ hl
      intro b hb
      rcases List.mem_cons.mp hb with rfl | hbr
      · exact h
      · exact htrans x y b h (hy b hbr)
    · rw [if_neg h]
      have hyx : le y x = true := by
        rcases htotal x y with h1 | h1
        · exact absurd h1 h
        · exact h1
      refine List.Pairwise.cons ?_ (ih hrest)
      intro b hb
      rcases mem_insertLe.mp hb with rfl | hbr
      · exact hyx
      · exact hy b hbr

theorem stableSort_sorted {α : Type} {le : α → α → Bool}
    (htrans : ∀ a b c, le a b = true → le b c = true → le a c = true)
    (htotal : ∀ a b, le a b = true ∨ le b a = true) (l : List α) :
    (stableSort le l).Pairwise (fun a b => le a b = true) := by
  induction l with
  | nil => simp [stableSort]
  | cons x l ih => exact insertLe_sorted htrans htotal ih

theorem insertLe_split {α : Type} (le : α → α → Bool) (x : α) (l : List α) :
    ∃ l₁ l₂, l = l₁ ++ l₂ ∧ insertLe le x l = l₁ ++ x :: l₂ ∧
      ∀ a ∈ l₁, le x a = false := by
  induction l with
  | nil => exact ⟨[], [], rfl, rfl, by simp⟩
  | cons y rest ih =>
    rw [insertLe]
    by_cases h : le x y = true
    · exact ⟨[], y :: rest, rfl, by rw [if_pos h]; rfl, by simp⟩
    · obtain ⟨l₁, l₂, he, hi, hf⟩ := ih
      refine ⟨y :: l₁, l₂, by rw [List.cons_append, ← he], ?_, ?_⟩
      · rw [if_neg h, hi]
        rfl
      · intro a ha
        rcases List.mem_cons.mp ha with rfl | har
        · exact Bool.not_eq_true _ ▸ h
        · exact hf a har

theorem sublist_stableSort {α : Type} {le : α → α → Bool} :
    ∀ (l : List α) {c : List α},
      c.Pairwise (fun a b => le a b = true) → c.Sublist l →
      c.Sublist (stableSort le l) := by
  intro l
  induction l with
  | nil =>
    intro c _ hc
    have hcnil : c = [] := List.sublist_nil.mp hc
    subst hcnil
    exact List.nil_sublist _
  | cons x l ih =>
    intro c hcp hc
    show c.Sublist (insertLe le x (stableSort le l))
    cases hc with
    | cons _ hcl =>
      have h1 := ih hcp hcl
      obtain ⟨l₁, l₂, he, hi, _⟩ := insertLe_split le x (stableSort le l)
      rw [hi]
      rw [he] at h1
      exact h1.middle x
    | cons₂ _ hcl =>
      rename_i c'
      rcases List.pairwise_cons.mp hcp with ⟨hx, hc'p⟩
      have h1 := ih hc'p hcl
      obtain ⟨l₁, l₂, he, hi, hf⟩ := insertLe_split le x (stableSort le l)
      rw [hi]
      rw [he] at h1
      obtain ⟨c₁, c₂, hce, hc₁, hc₂⟩ := List.sublist_append_iff.mp h1
      have hc₁nil : c₁ = [] := by
        cases c₁ with
        | nil => rfl
        | cons a c₁' =>
          exfalso
          have ha1 : a ∈ l₁ := hc₁.subset (List.mem_cons_self _ _)
          have ha2 : a ∈ c' := by
            rw [hce]
            exact List.mem_append_left c₂ (List.mem_cons_self a c₁')
          have := hx a ha2
          rw [hf a ha1] at this
          exact Bool.noConfusion this
      subst hc₁nil
      rw [List.nil_append] at hce
      subst hce
      exact List.sublist_append_of_sublist_right (hc₂.cons₂ x)

theorem pair_sublist_stableSort {α : Type} {le : α → α → Bool}
    {a b : α} {l : List α} (hab : le a b = true)
    (h : [a, b].Sublist l) : [a, b].Sublist (stableSort le l) :=
  sublist_stableSort l (List.pairwise_pair.mpr hab) h

/-! ## Claim C5 -/

theorem value_counts_perm {vs : Col} :
    (value_counts vs).Perm
      (tallyOf (vs.filter (fun v => !decide (v = Value.absent)))) :=
  stableSort_perm _ _

theorem sortByCountDesc_sorted {α : Type} {l : List (α × Nat)} :
    (sortByCountDesc l).Pairwise (fun a b => b.2 ≤ a.2) := by
  have h := @stableSort_sorted (α × Nat)
    (fun a b : α × Nat => decide (b.2 ≤ a.2))
    (fun a b c hab hbc => by
      simp only [decide_eq_true_eq] at *
      omega)
    (fun a b => by
      by_cases h : b.2 ≤ a.2
      · exact Or.inl (by simpa using h)
      · exact Or.inr (by simp; omega))
    l
  exact h.imp (fun hab => by simpa using hab)

theorem value_counts_sorted {vs : Col} :
    (value_counts vs).Pairwise (fun a b => b.2 ≤ a.2) :=
  sortByCountDesc_sorted

/-- Claim C5: `top_n` returns at most `n` distinct non-absent values of the
column with their exact multiplicities, ordered by count descending; every
non-absent value left out has multiplicity at most that of every returned
pair; ties keep the first-encountered order (pairs in tally order with equal
counts stay in that order in the sorted counts); and on the journal example
`[A, B, A, C, A]` with `n = 5` it returns `[(A,3), (B,1), (C,1)]`. -/
theorem c5_top_n_most_frequent :
    (∀ (t : Table) (c : String) (n : Nat) (vs : Col)
        (r : List (Value × Nat)),
      getCol t c = .ok vs → top_n t c n = .ok r →
      r.Pairwise (fun a b => b.2 ≤ a.2) ∧
      (∀ p ∈ r, p.1 ∈ vs ∧ p.1 ≠ Value.absent ∧
        p.2 = (vs.filter (fun v => !decide (v = Value.absent))).count p.1 ∧
        0 < p.2) ∧
      (r.map Prod.fst).Nodup ∧
      r.length ≤ n ∧
      (∀ v ∈ vs, v ≠ Value.absent → v ∉ r.map Prod.fst →
        ∀ p ∈ r,
          (vs.filter (fun v' => !decide (v' = Value.absent))).count v
            ≤ p.2) ∧
      (∀ p q, [p, q].Sublist
          (tallyOf (vs.filter (fun v => !decide (v = Value.absent)))) →
        q.2 ≤ p.2 → [p, q].Sublist (value_counts vs))) ∧
    top_n [("journal", [Value.str "A", Value.str "B", Value.str "A",
        Value.str "C", Value.str "A"])] "journal" 5
      = .ok [(Value.str "A", 3), (Value.str "B", 1), (Value.str "C", 1)] := by
  constructor
  · intro t c n vs r hvs hr
    rw [top_n, hvs] at hr
    have hre : r = (value_counts vs).take n := by
      injection hr
      rename_i h
      exact h.symm
    subst hre
    have hperm := @value_counts_perm vs
    have hsorted := @value_counts_sorted vs
    refine ⟨?_, ?_, ?_, ?_, ?_, ?_⟩
    · exact List.Pairwise.sublist (List.take_sublist _ _) hsorted
    · intro p hp
      have hpV : p ∈ value_counts vs := (List.take_sublist _ _).subset hp
      have hpT := hperm.subset hpV
      obtain ⟨h1, h2, h3⟩ := mem_tallyOf hpT
      obtain ⟨h4, h5⟩ := List.mem_filter.mp h1
      refine ⟨h4, ?_, h2, h3⟩
      simpa using h5
    · have hnd : ((value_counts vs).map Prod.fst).Nodup := by
        rw [(hperm.map Prod.fst).nodup_iff, map_fst_tallyOf]
        exact nodup_firstUniq
      rw [List.map_take]
      exact List.Nodup.sublist (List.take_sublist _ _) hnd
    · exact List.length_take_le _ _
    · intro v hv hvne hvnotin p hp
      have hvf : v ∈ vs.filter (fun v' => !decide (v' = Value.absent)) :=
        List.mem_filter.mpr ⟨hv, by simpa using hvne⟩
      have hvT := count_mem_tallyOf hvf
      have hvV : (v, (vs.filter
          (fun v' => !decide (v' = Value.absent))).count v)
          ∈ value_counts vs := hperm.mem_iff.mpr hvT
      rw [← List.take_append_drop n (value_counts vs)] at hvV hsorted
      rcases List.mem_append.mp hvV with h1 | h1
      · exact absurd (List.mem_map_of_mem Prod.fst h1) hvnotin
      · have := (List.pairwise_append.mp hsorted).2.2
        exact this p hp _ h1
    · intro p q hpq hle
      exact pair_sublist_stableSort (by simpa using hle) hpq
  · rfl

/-! ## Claim C4 -/

/-- The word-boundary tokens of the space-joined, lower-cased non-absent
titles (the token stream `analyze_titles` counts before stopword
removal). -/
def titleWords (titles : Col) : List String :=
  findTokens (pyLower (String.intercalate " "
    ((titles.filter (fun v => !decide (v = Value.absent))).map pyStr)))

/-- The title token stream after stopword removal. -/
def titleFiltered (titles : Col) : List String :=
  (titleWords titles).filter (fun w => !stop_words.contains w)

/-- Claim C4 is false as stated: on the single title `"abc1 xyz"` the
specified tokenizer (maximal alphabetic runs of length at least 3) yields
`abc` and `xyz`, but the code's regex `\b[a-zA-Z]{3,}\b` rejects `abc`
(its right neighbour `1` is a word character), so `analyze_titles` returns
`[("xyz", 1)]` while the claim requires `[("abc", 1), ("xyz", 1)]`. -/
theorem c4_counterexample :
    analyze_titles [("title", [Value.str "abc1 xyz"])] = .ok [("xyz", 1)] ∧
    claimed_word_frequency [Value.str "abc1 xyz"]
      = [("abc", 1), ("xyz", 1)] ∧
    ([("xyz", 1)] : List (String × Nat)) ≠ [("abc", 1), ("xyz", 1)] := by
  refine ⟨rfl, rfl, ?_⟩
  decide

/-- Claim C4 (amended): `analyze_titles` space-joins the non-absent titles,
lower-cases, tokenizes into maximal alphabetic runs of length at least 3
not adjacent to another word character (the regex `\b[a-zA-Z]{3,}\b`),
drops stopwords, and returns at most 20 pairs with exact occurrence
counts, ordered by count descending, every excluded token having
multiplicity at most that of every returned pair, ties keeping
first-encountered order; the claim's concrete example holds. -/
theorem c4_amended_word_frequency :
    (∀ (t : Table) (titles : Col) (ws : List (String × Nat)),
      getCol t "title" = .ok titles →
      analyze_titles t = .ok ws →
      ws.Pairwise (fun a b => b.2 ≤ a.2) ∧
      (∀ p ∈ ws, p.1 ∈ titleWords titles ∧ p.1 ∉ stop_words ∧
        p.2 = (titleFiltered titles).count p.1 ∧ 0 < p.2) ∧
      (ws.map Prod.fst).Nodup ∧
      ws.length ≤ 20 ∧
      (∀ w ∈ titleFiltered titles, w ∉ ws.map Prod.fst →
        ∀ p ∈ ws, (titleFiltered titles).count w ≤ p.2) ∧
      (∀ p q, [p, q].Sublist (tallyOf (titleFiltered titles)) →
        q.2 ≤ p.2 →
        [p, q].Sublist (sortByCountDesc (tallyOf (titleFiltered titles))))) ∧
    analyze_titles [("title", [Value.str "Covid Study",
        Value.str "covid study results"])]
      = .ok [("covid", 2), ("study", 2), ("results", 1)] := by
  constructor
  · intro t titles ws htitles hws
    rw [analyze_titles, htitles] at hws
    simp only [] at hws
    have hws2 : (if (mostCommon 20 (tallyOf (titleFiltered titles))).isEmpty
        then (Except.error PyError.emptyUnpack :
          Except PyError (List (String × Nat)))
        else Except.ok (mostCommon 20 (tallyOf (titleFiltered titles))))
        = Except.ok ws := hws
    by_cases hE : (mostCommon 20 (tallyOf (titleFiltered titles))).isEmpty
    · rw [if_pos hE] at hws2
      exact absurd hws2 (by simp)
    · rw [if_neg hE] at hws2
      rename' hws2 => hws
      have hwse : ws = (sortByCountDesc (tallyOf (titleFiltered titles))).take 20 := by
        injection hws
        rename_i h
        exact h.symm
      subst hwse
      have hperm : (sortByCountDesc (tallyOf (titleFiltered titles))).Perm
          (tallyOf (titleFiltered titles)) := stableSort_perm _ _
      have hsorted : (sortByCountDesc
          (tallyOf (titleFiltered titles))).Pairwise
          (fun a b => b.2 ≤ a.2) := sortByCountDesc_sorted
      refine ⟨?_, ?_, ?_, ?_, ?_, ?_⟩
      · exact List.Pairwise.sublist (List.take_sublist _ _) hsorted
      · intro p hp
        have hpV : p ∈ sortByCountDesc (tallyOf (titleFiltered titles)) :=
          (List.take_sublist _ _).subset hp
        have hpT := hperm.subset hpV
        obtain ⟨h1, h2, h3⟩ := mem_tallyOf hpT
        obtain ⟨h4, h5⟩ := List.mem_filter.mp h1
        refine ⟨h4, ?_, h2, h3⟩
        simpa using h5
      · have hnd : ((sortByCountDesc
            (tallyOf (titleFiltered titles))).map Prod.fst).Nodup := by
          rw [(hperm.map Prod.fst).nodup_iff, map_fst_tallyOf]
          exact nodup_firstUniq
        rw [List.map_take]
        exact List.Nodup.sublist (List.take_sublist _ _) hnd
      · exact List.length_take_le _ _
      · intro w hw hwnotin p hp
        have hwT := count_mem_tallyOf hw
        have hwV : (w, (titleFiltered titles).count w)
            ∈ sortByCountDesc (tallyOf (titleFiltered titles)) :=
          hperm.mem_iff.mpr hwT
        rw [← List.take_append_drop 20
          (sortByCountDesc (tallyOf (titleFiltered titles)))] at hwV hsorted
        rcases List.mem_append.mp hwV with h1 | h1
        · exact absurd (List.mem_map_of_mem Prod.fst h1) hwnotin
        · exact (List.pairwise_append.mp hsorted).2.2 p hp _ h1
      · intro p q hpq hle
        exact pair_sublist_stableSort (by simpa using hle) hpq
  · rfl

/-! ## Claim C6: empty input -/

/-- A zero-row table with all the analyzed columns present. -/
def c6EmptyTable : Table :=
  [("title", []), ("abstract", []), ("journal", []),
   ("publish_time", []), ("source_x", []),
   ("publication_year", []), ("abstract_word_count", []),
   ("has_abstract", [])]

/-- Claim C6 is false as stated: on the empty table `analyze_titles` does
not return an empty sequence — it raises the `ValueError` of
`words, counts = zip(*common_words)` unpacking the empty frequency list. -/
theorem c6_counterexample :
    analyze_titles c6EmptyTable = .error PyError.emptyUnpack ∧
    analyze_titles c6EmptyTable ≠ .ok [] := by
  refine ⟨rfl, ?_⟩
  intro h
  rw [(rfl : analyze_titles c6EmptyTable = .error PyError.emptyUnpack)] at h
  exact Except.noConfusion h

/-- Claim C6 (amended): over a zero-row table, `top_n`, the publication
trend aggregates and the source aggregate all return empty results without
raising, but `analyze_titles` raises a `ValueError` while unpacking the
empty word-frequency list instead of returning an empty sequence. -/
theorem c6_amended_empty_aggregations :
    (∀ (t : Table) (c : String) (n : Nat), getCol t c = .ok [] →
      top_n t c n = .ok []) ∧
    (∀ t : Table, getCol t "publication_year" = .ok [] →
      getCol t "journal" = .ok [] →
      analyze_publication_trends t = .ok ([], [])) ∧
    (∀ t : Table, getCol t "source_x" = .ok [] →
      analyze_sources t = .ok []) ∧
    (∀ t : Table, getCol t "title" = .ok [] →
      analyze_titles t = .error PyError.emptyUnpack) := by
  refine ⟨?_, ?_, ?_, ?_⟩
  · intro t c n h
    simp [top_n, h, value_counts, tallyOf, sortByCountDesc, stableSort]
  · intro t h1 h2
    simp only [analyze_publication_trends, h1, h2]
    rfl
  · intro t h
    simp only [analyze_sources, h]
    rfl
  · intro t h
    simp only [analyze_titles, h]
    rfl

/-! ## Witnesses -/

/-- A table with the `journal` column missing. -/
def c2WitMissing : Table :=
  [("title", [Value.absent]), ("abstract", [Value.absent]),
   ("publish_time", [Value.absent]), ("source_x", [Value.absent])]

/-- A one-row table with all required columns. -/
def c2WitFull : Table :=
  [("title", [Value.str "t"]), ("abstract", [Value.str "a"]),
   ("journal", [Value.str "J"]), ("publish_time", [Value.absent]),
   ("source_x", [Value.str "s"])]

theorem c2_schema_error_on_missing_column_witness :
    (∃ c ∈ requiredColumns, hasCol c2WitMissing c = false ∧
      clean_data c2WitMissing = .error (.missingColumn c)) ∧
    (∃ T, clean_data c2WitFull = .ok T) :=
  ⟨(c2_schema_error_on_missing_column c2WitMissing).1
      ⟨"journal", by decide, by decide⟩,
    (c2_schema_error_on_missing_column c2WitFull).2 (by decide)⟩

/-- A two-row table: one parseable date, one unparseable. -/
def c3Wit : Table :=
  [("title", [Value.str "x", Value.str "y"]),
   ("abstract", [Value.str "a", Value.str "b"]),
   ("journal", [Value.str "J", Value.str "J"]),
   ("publish_time", [Value.str "2020-01-01", Value.str "bad"]),
   ("source_x", [Value.str "s", Value.str "s"])]

theorem c3_unparseable_dates_get_mode_year_witness :
    ∃ T ycol, clean_data c3Wit = .ok T ∧
      getCol T "publication_year" = .ok ycol ∧
      ((∃ m : Int, modeOf (knownYears ([Value.str "2020-01-01",
            Value.str "bad"].map parseDate)) = some m ∧
          m ∈ knownYears ([Value.str "2020-01-01",
            Value.str "bad"].map parseDate) ∧
          (∀ y : Int, (knownYears ([Value.str "2020-01-01",
              Value.str "bad"].map parseDate)).count y
            ≤ (knownYears ([Value.str "2020-01-01",
              Value.str "bad"].map parseDate)).count m) ∧
          ∀ (i : Nat) (v : Value),
            [Value.str "2020-01-01", Value.str "bad"][i]? = some v →
            parseDate v = none → ycol[i]? = some (Value.int m))
        ∨ (knownYears ([Value.str "2020-01-01",
            Value.str "bad"].map parseDate) = [] ∧
          ∀ (i : Nat) (v : Value),
            [Value.str "2020-01-01", Value.str "bad"][i]? = some v →
            ycol[i]? = some Value.absent)) :=
  c3_unparseable_dates_get_mode_year c3Wit 2
    [Value.str "2020-01-01", Value.str "bad"]
    [Value.str "x", Value.str "y"] [Value.str "a", Value.str "b"]
    [Value.str "J", Value.str "J"] [Value.str "s", Value.str "s"]
    (by decide) rfl rfl rfl rfl rfl

theorem c4_amended_word_frequency_witness :
    List.Pairwise (fun a b : String × Nat => b.2 ≤ a.2)
      [("covid", 2), ("study", 2), ("results", 1)] :=
  (c4_amended_word_frequency.1
    [("title", [Value.str "Covid Study", Value.str "covid study results"])]
    [Value.str "Covid Study", Value.str "covid study results"]
    [("covid", 2), ("study", 2), ("results", 1)] rfl rfl).1

theorem c5_top_n_most_frequent_witness :
    List.Pairwise (fun a b : Value × Nat => b.2 ≤ a.2)
      [(Value.str "A", 3), (Value.str "B", 1), (Value.str "C", 1)] :=
  (c5_top_n_most_frequent.1
    [("journal", [Value.str "A", Value.str "B", Value.str "A",
      Value.str "C", Value.str "A"])]
    "journal" 5
    [Value.str "A", Value.str "B", Value.str "A",
      Value.str "C", Value.str "A"]
    [(Value.str "A", 3), (Value.str "B", 1), (Value.str "C", 1)]
    rfl rfl).1

theorem c6_amended_empty_aggregations_witness :
    top_n c6EmptyTable "journal" 5 = .ok [] ∧
    analyze_publication_trends c6EmptyTable = .ok ([], []) ∧
    analyze_sources c6EmptyTable = .ok [] ∧
    analyze_titles c6EmptyTable = .error PyError.emptyUnpack :=
  ⟨c6_amended_empty_aggregations.1 c6EmptyTable "journal" 5 rfl,
   c6_amended_empty_aggregations.2.1 c6EmptyTable rfl rfl,
   c6_amended_empty_aggregations.2.2.1 c6EmptyTable rfl,
   c6_amended_empty_aggregations.2.2.2 c6EmptyTable rfl⟩

/-- The cleaned table `clean_data` produces from `c2WitFull`. -/
def c7WitOut : Table :=
  [("title", [Value.str "t"]), ("abstract", [Value.str "a"]),
   ("journal", [Value.str "J"]), ("publish_time", [Value.absent]),
   ("source_x", [Value.str "s"]),
   ("publication_year", [Value.absent]),
   ("publication_month", [Value.absent]),
   ("abstract_word_count", [Value.int 1]),
   ("title_word_count", [Value.int 1]),
   ("has_abstract", [Value.bool true]),
   ("source_type", [Value.str "s"])]

theorem c7_clean_idempotent_witness :
    clean_data c7WitOut = .ok c7WitOut :=
  c7_clean_idempotent c2WitFull c7WitOut 1 (by decide) rfl

/-- A one-row table whose `title` is absent and whose abstract has two
whitespace-separated tokens. -/
def c8Wit : Table :=
  [("title", [Value.absent]), ("abstract", [Value.str " hello world "]),
   ("journal", [Value.absent]), ("publish_time", [Value.absent]),
   ("source_x", [Value.absent])]

/-- The cleaned table `clean_data` produces from `c8Wit`. -/
def c8WitOut : Table :=
  [("title", [Value.str "Unknown Title"]),
   ("abstract", [Value.str " hello world "]),
   ("journal", [Value.str "Unknown Journal"]),
   ("publish_time", [Value.absent]), ("source_x", [Value.absent]),
   ("publication_year", [Value.absent]),
   ("publication_month", [Value.absent]),
   ("abstract_word_count", [Value.int 2]),
   ("title_word_count", [Value.int 2]),
   ("has_abstract", [Value.bool true]),
   ("source_type", [Value.str "Unknown"])]

theorem c8_cleaned_row_invariants_witness :
    ∃ ttlC abC hbC wcC,
      getCol c8WitOut "title" = .ok ttlC ∧
      getCol c8WitOut "abstract" = .ok abC ∧
      getCol c8WitOut "has_abstract" = .ok hbC ∧
      getCol c8WitOut "abstract_word_count" = .ok wcC ∧
      (∀ v ∈ ttlC, v ≠ Value.absent) ∧
      (∀ v ∈ abC, v ≠ Value.absent) ∧
      (∀ i : Nat, [Value.absent][i]? = some Value.absent →
        ttlC[i]? = some (Value.str "Unknown Title")) ∧
      (∀ i : Nat, [Value.str " hello world "][i]? = some Value.absent →
        abC[i]? = some (Value.str "")) ∧
      (∀ (i : Nat) (v : Value), abC[i]? = some v →
        hbC[i]? = some (Value.bool (decide (0 < (pyStrip (pyStr v)).length)))
          ∧ wcC[i]? = some (Value.int ((pySplit (pyStr v)).length : Int))) :=
  c8_cleaned_row_invariants c8Wit 1 [Value.absent] [Value.absent]
    [Value.str " hello world "] [Value.absent] [Value.absent] c8WitOut
    (by decide) rfl rfl rfl rfl rfl rfl

/-- `c2WitFull` extended with an additional column `extra`. -/
def c9WitInput : Table :=
  [("title", [Value.str "t"]), ("abstract", [Value.str "a"]),
   ("journal", [Value.str "J"]), ("publish_time", [Value.absent]),
   ("source_x", [Value.str "s"]), ("extra", [Value.int 7])]

/-- The cleaned table `clean_data` produces from `c9WitInput`. -/
def c9WitOutput : Table :=
  [("title", [Value.str "t"]), ("abstract", [Value.str "a"]),
   ("journal", [Value.str "J"]), ("publish_time", [Value.absent]),
   ("source_x", [Value.str "s"]), ("extra", [Value.int 7]),
   ("publication_year", [Value.absent]),
   ("publication_month", [Value.absent]),
   ("abstract_word_count", [Value.int 1]),
   ("title_word_count", [Value.int 1]),
   ("has_abstract", [Value.bool true]),
   ("source_type", [Value.str "s"])]

theorem c9_amended_extra_columns_pass_through_witness :
    getCol c9WitOutput "extra" = getCol c9WitInput "extra" :=
  c9_amended_extra_columns_pass_through c9WitInput 1 c9WitOutput "extra"
    (by decide) rfl (by decide) (by decide)

/-- The table the dashboard's `clean_data` produces from `c8Wit` with a
short abstract. -/
def c10AppInput : Table :=
  [("title", [Value.absent]), ("abstract", [Value.str "hi"]),
   ("journal", [Value.absent]), ("publish_time", [Value.absent]),
   ("source_x", [Value.str "s"])]

/-- The output of the dashboard's `clean_data` on `c10AppInput`. -/
def c10AppOutput : Table :=
  [("title", [Value.str "Unknown Title"]), ("abstract", [Value.str "hi"]),
   ("journal", [Value.str "Unknown Journal"]),
   ("publish_time", [Value.absent]), ("source_x", [Value.str "s"]),
   ("publication_year", [Value.absent]),
   ("abstract_word_count", [Value.int 1]),
   ("has_abstract", [Value.bool true])]

theorem c10_has_abstract_iff_word_count_pos_witness :
    (∃ hbC wcC, getCol c8WitOut "has_abstract" = .ok hbC ∧
      getCol c8WitOut "abstract_word_count" = .ok wcC ∧
      ∀ i : Nat, hbC[i]? = some (Value.bool true)
        ↔ ∃ k : Int, wcC[i]? = some (Value.int k) ∧ 0 < k) ∧
    (∃ hbC wcC, getCol c10AppOutput "has_abstract" = .ok hbC ∧
      getCol c10AppOutput "abstract_word_count" = .ok wcC ∧
      ∀ i : Nat, hbC[i]? = some (Value.bool true)
        ↔ ∃ k : Int, wcC[i]? = some (Value.int k) ∧ 0 < k) :=
  ⟨c10_has_abstract_iff_word_count_pos.1 c8Wit 1 [Value.absent]
      [Value.absent] [Value.str " hello world "] [Value.absent]
      [Value.absent] c8WitOut (by decide) rfl rfl rfl rfl rfl rfl,
   c10_has_abstract_iff_word_count_pos.2 c10AppInput [Value.absent]
      [Value.absent] [Value.str "hi"] [Value.absent] c10AppOutput
      rfl rfl rfl rfl rfl⟩
